import Mathlib

/-!
Verification of the WhatsApp-wrapped chat summarizer core.

This file embeds, as executable Lean definitions, the message
reconstruction pipeline of `app/infrastructure/parser.py`, the domain
aggregation of `app/domain/models.py`, the summarizer of
`app/application/services.py` and the highlight selection of `app.py`,
and proves properties of them.

Modelling conventions:
* Python text is modelled as `List Char`; `str.lower` is modelled on the
  ASCII and Latin-1 ranges (identity elsewhere), which covers every
  pattern, marker and stop word the code uses.
* Python regular expressions are modelled by hand-rolled matchers that
  reproduce the (deterministic) backtracking behaviour of the concrete
  patterns in the source.
* `datetime.strptime` is modelled for the four fixed patterns of
  `parse_timestamp`, using CPython's field regexes (%d, %m, %y, %Y, %H,
  %M, %S) and the `datetime` constructor's range validation.
* Fallible code returns `Option` / `Except`.
-/

/-- The two transcript dialects (`app/domain/export_format.py`);
dialect A is "ios", dialect B is "android". -/
inductive ExportFormat where
  | ios
  | android
deriving DecidableEq, Repr

/-- The media kinds (`MessageKind` in `app/domain/models.py`). -/
inductive MessageKind where
  | text
  | voice
  | video
  | video_note
  | photo
  | sticker
deriving DecidableEq, Repr

/-- A naive wall-clock timestamp, as `datetime.datetime` stores it. -/
structure DateTime where
  year : Nat
  month : Nat
  day : Nat
  hour : Nat
  minute : Nat
  second : Nat
deriving DecidableEq, Repr

/-- Python `datetime` comparison: lexicographic on
(year, month, day, hour, minute, second). -/
def dtLt (a b : DateTime) : Bool :=
  if a.year ≠ b.year then a.year < b.year
  else if a.month ≠ b.month then a.month < b.month
  else if a.day ≠ b.day then a.day < b.day
  else if a.hour ≠ b.hour then a.hour < b.hour
  else if a.minute ≠ b.minute then a.minute < b.minute
  else a.second < b.second

/-- The whitespace class `\s` of Python regexes / `str.strip`, restricted
to the ASCII range (the only whitespace the transcripts and patterns
contain). -/
def isPySpace (c : Char) : Bool :=
  c == ' ' || c == '\t' || c == '\n' || c == '\x0b' || c == '\x0c' || c == '\r'

/-- `str.lower`, modelled on ASCII ('A'-'Z') and the Latin-1 uppercase
range (U+00C0-U+00DE except the multiplication sign U+00D7); identity on
every other character.  All fixed patterns, markers and stop words of the
source fall in this fragment. -/
def pyLowerChar (c : Char) : Char :=
  if 'A' ≤ c ∧ c ≤ 'Z' then Char.ofNat (c.toNat + 32)
  else if 0xC0 ≤ c.toNat ∧ c.toNat ≤ 0xDE ∧ c.toNat ≠ 0xD7 then Char.ofNat (c.toNat + 32)
  else c

/-- `text.lower()` character by character. -/
def pyLowerL (l : List Char) : List Char := l.map pyLowerChar

/-- `str.strip()` with no argument: ASCII whitespace off both ends. -/
def pyStripL (l : List Char) : List Char :=
  ((l.dropWhile isPySpace).reverse.dropWhile isPySpace).reverse

/-- Strip every character of `set` off both ends (`str.strip(chars)`). -/
def stripSetL (set : List Char) (l : List Char) : List Char :=
  ((l.dropWhile (set.contains ·)).reverse.dropWhile (set.contains ·)).reverse

/-- Substring containment, `needle in hay` on Python strings. -/
def startsWithL : List Char → List Char → Bool
  | [], _ => true
  | _ :: _, [] => false
  | a :: as, b :: bs => a == b && startsWithL as bs

/-- `needle in hay` (Python substring test). -/
def containsSub (needle : List Char) : List Char → Bool
  | [] => startsWithL needle []
  | c :: t => startsWithL needle (c :: t) || containsSub needle t

/-- `line.rstrip("\n")`. -/
def rstripNl (l : List Char) : List Char :=
  (l.reverse.dropWhile (· == '\n')).reverse

/-- `line.lstrip("﻿‎").strip("﻿")` (parser.py line 81). -/
def normalizeLine (l : List Char) : List Char :=
  stripSetL ['﻿'] (l.dropWhile (fun c => c == '﻿' || c == '‎'))

/-- Digit-string value (the fields are pure decimal digit runs). -/
def natOfDigits (l : List Char) : Nat :=
  l.foldl (fun n c => n * 10 + (c.toNat - 48)) 0

/-! ## `parse_timestamp` (parser.py lines 41-54)

`datetime.strptime` on the four patterns `%d/%m/%Y %H:%M:%S`,
`%d/%m/%Y %H:%M`, `%d/%m/%y %H:%M:%S`, `%d/%m/%y %H:%M`.  CPython's
`_strptime` compiles `%d` to `3[01]|[12]\d|0[1-9]|[1-9]`, `%m` to
`1[0-2]|0[1-9]|[1-9]`, `%H` to `2[0-3]|[0-1]\d|\d`, `%M` to `[0-5]\d|\d`,
`%S` to `6[0-1]|[0-5]\d|\d`, `%Y` to `\d\d\d\d`, `%y` to `\d\d`, and a
whitespace chunk of the format to `\s+`.  Because each field is followed
by a non-digit literal or the end of the string, the alternation resolves
to: consume the maximal digit run, and accept exactly when its length and
value fit one alternative. -/

/-- A 1-or-2-digit `strptime` field: the maximal digit run is consumed;
`two1` constrains a 2-digit run's value, `one1` a 1-digit run's. -/
def numField2 (two1 one1 : Nat → Bool) (l : List Char) : Option (Nat × List Char) :=
  let run := l.takeWhile Char.isDigit
  let rest := l.dropWhile Char.isDigit
  if run.length == 2 && two1 (natOfDigits run) then some (natOfDigits run, rest)
  else if run.length == 1 && one1 (natOfDigits run) then some (natOfDigits run, rest)
  else none

/-- The year field: `%Y` is exactly four digits; `%y` exactly two, with
CPython's century rule (0-68 maps to 2000s, 69-99 to 1900s). -/
def yearField (four : Bool) (l : List Char) : Option (Nat × List Char) :=
  let run := l.takeWhile Char.isDigit
  let rest := l.dropWhile Char.isDigit
  if four then
    if run.length == 4 then some (natOfDigits run, rest) else none
  else
    if run.length == 2 then
      let v := natOfDigits run
      some ((if v < 69 then 2000 + v else 1900 + v), rest)
    else none

/-- The acceptance condition of a 1-or-2-digit field on a maximal digit
run: a two-digit run passing `two1`, or a one-digit run passing `one1`. -/
def fieldOK (two1 one1 : Nat → Bool) (a : List Char) : Bool :=
  (a.length == 2 && two1 (natOfDigits a)) || (a.length == 1 && one1 (natOfDigits a))

/-- A literal character of the format. -/
def litChar (c : Char) : List Char → Option (List Char)
  | [] => none
  | x :: t => if x == c then some t else none

/-- A whitespace chunk of the format (compiled to `\s+`). -/
def wsChunk (l : List Char) : Option (List Char) :=
  let run := l.takeWhile isPySpace
  if run.isEmpty then none else some (l.dropWhile isPySpace)

/-- How many days `datetime` allows in a month (proleptic Gregorian). -/
def daysInMonth (y m : Nat) : Nat :=
  if m == 2 then (if y % 4 == 0 && (y % 100 != 0 || y % 400 == 0) then 29 else 28)
  else if m == 4 || m == 6 || m == 9 || m == 11 then 30 else 31

/-- The `datetime(year, month, day, hour, minute, second)` constructor's
range validation (strptime's `%S` admits 60 and 61, the constructor does
not). -/
def mkDatetime (y m d h mi s : Nat) : Option DateTime :=
  if 1 ≤ y ∧ y ≤ 9999 ∧ 1 ≤ m ∧ m ≤ 12 ∧ 1 ≤ d ∧ d ≤ daysInMonth y m
      ∧ h ≤ 23 ∧ mi ≤ 59 ∧ s ≤ 59 then
    some ⟨y, m, d, h, mi, s⟩
  else none

/-- `datetime.strptime(joined, pattern)` for the four patterns of
`parse_timestamp`: `four` selects `%Y` over `%y`, `secs` the `:%S`
suffix.  The whole string must be consumed. -/
def strptimeDMY (four secs : Bool) (l : List Char) : Option DateTime :=
  match numField2 (fun v => decide (1 ≤ v ∧ v ≤ 31)) (fun v => decide (1 ≤ v)) l with
  | none => none
  | some (d, l) =>
  match litChar '/' l with
  | none => none
  | some l =>
  match numField2 (fun v => decide (1 ≤ v ∧ v ≤ 12)) (fun v => decide (1 ≤ v)) l with
  | none => none
  | some (m, l) =>
  match litChar '/' l with
  | none => none
  | some l =>
  match yearField four l with
  | none => none
  | some (y, l) =>
  match wsChunk l with
  | none => none
  | some l =>
  match numField2 (fun v => decide (v ≤ 23)) (fun _ => true) l with
  | none => none
  | some (h, l) =>
  match litChar ':' l with
  | none => none
  | some l =>
  match numField2 (fun v => decide (v ≤ 59)) (fun _ => true) l with
  | none => none
  | some (mi, l) =>
  if secs then
    match litChar ':' l with
    | none => none
    | some l =>
    match numField2 (fun v => decide (v ≤ 61)) (fun _ => true) l with
    | none => none
    | some (s, l) =>
    if l.isEmpty then mkDatetime y m d h mi s else none
  else
    if l.isEmpty then mkDatetime y m d h mi 0 else none

/-- `parse_timestamp(date_str, time_str)` (parser.py lines 41-54): join
with a space and try the four patterns in order; `none` models the raised
`ValueError`. -/
def parse_timestamp (dateStr timeStr : List Char) : Option DateTime :=
  let joined := dateStr ++ ' ' :: timeStr
  (strptimeDMY true true joined).orElse fun _ =>
  (strptimeDMY true false joined).orElse fun _ =>
  (strptimeDMY false true joined).orElse fun _ =>
  strptimeDMY false false joined

/-! ## The two timestamp prefix regexes (parser.py lines 16-21)

`IOS_TIMESTAMP_RE  = ^\s*\[(\d{1,2}/\d{1,2}/\d{2,4}),\s+(\d{1,2}:\d{2}(?::\d{2})?)\]\s+(.*)`
`ANDROID_TIMESTAMP_RE = ^\s*(\d{1,2}/\d{1,2}/\d{2,4}),\s+(\d{1,2}:\d{2}(?::\d{2})?)\s+-\s+(.*)`

Each `\d{a,b}` group is followed by a non-digit literal, so greedy
matching with backtracking reduces to: the maximal digit run must have
length in `[a,b]` and be followed by the literal.  The optional seconds
group is greedy-with-fallback; `.*` stops at a newline. -/

/-- What a successful prefix match yields: the two captured groups and
the rest of the line (`match.group(3)`). -/
structure TsGroups where
  dateStr : List Char
  timeStr : List Char
  rest : List Char
deriving DecidableEq, Repr

/-- The shared `(\d{1,2}/\d{1,2}/\d{2,4})` date group; yields the matched
text and what follows. -/
def dateGroup (l : List Char) : Option (List Char × List Char) :=
  let drun := l.takeWhile Char.isDigit
  let l1 := l.dropWhile Char.isDigit
  if drun.length == 0 || 2 < drun.length then none else
  match l1 with
  | '/' :: l2 =>
    let mrun := l2.takeWhile Char.isDigit
    let l3 := l2.dropWhile Char.isDigit
    if mrun.length == 0 || 2 < mrun.length then none else
    match l3 with
    | '/' :: l4 =>
      let yrun := l4.takeWhile Char.isDigit
      let l5 := l4.dropWhile Char.isDigit
      if yrun.length < 2 || 4 < yrun.length then none else
      some (drun ++ '/' :: mrun ++ '/' :: yrun, l5)
    | _ => none
  | _ => none

/-- The iOS pattern's tail after the time group: `\]\s+(.*)`. -/
def iosTail (l : List Char) : Option (List Char) :=
  match l with
  | ']' :: l1 =>
    let ws := l1.takeWhile isPySpace
    if ws.isEmpty then none else some ((l1.dropWhile isPySpace).takeWhile (· != '\n'))
  | _ => none

/-- The Android pattern's tail after the time group: `\s+-\s+(.*)`. -/
def androidTail (l : List Char) : Option (List Char) :=
  let ws1 := l.takeWhile isPySpace
  if ws1.isEmpty then none else
  match l.dropWhile isPySpace with
  | '-' :: l2 =>
    let ws2 := l2.takeWhile isPySpace
    if ws2.isEmpty then none else some ((l2.dropWhile isPySpace).takeWhile (· != '\n'))
  | _ => none

/-- The `(\d{1,2}:\d{2}(?::\d{2})?)` time group followed by the dialect's
tail; the optional seconds group is tried greedily and given up if the
tail then fails.  Yields (time group text, `.*` group text). -/
def timeGroup (tail : List Char → Option (List Char)) (l : List Char) :
    Option (List Char × List Char) :=
  let hrun := l.takeWhile Char.isDigit
  let l1 := l.dropWhile Char.isDigit
  if hrun.length == 0 || 2 < hrun.length then none else
  match l1 with
  | ':' :: m1 :: m2 :: l3 =>
    if m1.isDigit && m2.isDigit then
      let withSecs : Option (List Char × List Char) :=
        match l3 with
        | ':' :: s1 :: s2 :: l4 =>
          if s1.isDigit && s2.isDigit then
            match tail l4 with
            | some rest => some (hrun ++ ':' :: m1 :: m2 :: ':' :: s1 :: [s2], rest)
            | none => none
          else none
        | _ => none
      match withSecs with
      | some r => some r
      | none =>
        match tail l3 with
        | some rest => some (hrun ++ ':' :: m1 :: [m2], rest)
        | none => none
    else none
  | _ => none

/-- `IOS_TIMESTAMP_RE.match(line)`. -/
def matchIos (l : List Char) : Option TsGroups :=
  match l.dropWhile isPySpace with
  | '[' :: l1 =>
    match dateGroup l1 with
    | some (ds, l2) =>
      match l2 with
      | ',' :: l3 =>
        let ws := l3.takeWhile isPySpace
        if ws.isEmpty then none else
        match timeGroup iosTail (l3.dropWhile isPySpace) with
        | some (tstr, rest) => some ⟨ds, tstr, rest⟩
        | none => none
      | _ => none
    | none => none
  | _ => none

/-- `ANDROID_TIMESTAMP_RE.match(line)`. -/
def matchAndroid (l : List Char) : Option TsGroups :=
  match dateGroup (l.dropWhile isPySpace) with
  | some (ds, l2) =>
    match l2 with
    | ',' :: l3 =>
      let ws := l3.takeWhile isPySpace
      if ws.isEmpty then none else
      match timeGroup androidTail (l3.dropWhile isPySpace) with
      | some (tstr, rest) => some ⟨ds, tstr, rest⟩
      | none => none
    | _ => none
  | none => none

/-- `ChatParser._match_timestamp` (parser.py lines 156-169): before the
dialect is locked both patterns are tried, iOS first; after locking only
the locked dialect's.  The source returns a `(match, matched_format)`
pair in which `matched_format` is set exactly when `match` is; the pair
is modelled as one `Option`. -/
def matchTimestampFn (line : List Char) (exportFormat : Option ExportFormat) :
    Option (TsGroups × ExportFormat) :=
  match
    (if exportFormat = none ∨ exportFormat = some .ios then matchIos line else none) with
  | some g => some (g, .ios)
  | none =>
    match
      (if exportFormat = none ∨ exportFormat = some .android then matchAndroid line
       else none) with
    | some g => some (g, .android)
    | none => none

/-! ## The message classifier (parser.py lines 210-261) -/

/-- `MEDIA_PLACEHOLDER`. -/
def MEDIA_PLACEHOLDER : List Char := "<media omitted>".toList

/-- `VIDEO_NOTE_PLACEHOLDER`. -/
def VIDEO_NOTE_PLACEHOLDER : List Char := "<video note omitted>".toList

/-- `VOICE_ONCE_PLACEHOLDER`. -/
def VOICE_ONCE_PLACEHOLDER : List Char := "<view once voice message omitted>".toList

/-- `SYSTEM_TEXT_MARKERS` (parser.py lines 28-38). -/
def SYSTEM_TEXT_MARKERS : List (List Char) :=
  ["messages and calls are end-to-end encrypted".toList,
   "created this group".toList,
   "added you".toList,
   "changed this group\x27s icon".toList,
   "changed this group\x27s description".toList,
   "changed the subject".toList,
   "changed this group\x27s subject".toList,
   "joined using this group\x27s invite link".toList,
   "pinned a message".toList]

/-- The attachment categories `_ext_to_type` can name ("video_note" is
compared against in `_classify_message` but never produced). -/
inductive AttachKind where
  | voice
  | video
  | video_note
  | photo
  | sticker
deriving DecidableEq, Repr

/-- `ChatParser._ext_to_type` (parser.py lines 246-256). -/
def extToType (ext : List Char) : Option AttachKind :=
  if ext == "opus".toList then some .voice
  else if ext == "mp4".toList || ext == "mov".toList || ext == "m4v".toList then some .video
  else if ext == "jpg".toList || ext == "jpeg".toList || ext == "png".toList
      || ext == "gif".toList then some .photo
  else if ext == "webp".toList || ext == "sticker".toList then some .sticker
  else none

/-- The word class `\w` of the extension group, on the ASCII range
(letters, digits, underscore). -/
def isWordCh (c : Char) : Bool :=
  ('a' ≤ c ∧ c ≤ 'z') || ('A' ≤ c ∧ c ≤ 'Z') || c.isDigit || c == '_'

/-- Case-insensitive literal prefix (a `re.I` pattern literal); yields
what follows it. -/
def ciStartsL : List Char → List Char → Option (List Char)
  | [], l => some l
  | _ :: _, [] => none
  | p :: ps, c :: cs =>
    if pyLowerChar p == pyLowerChar c then ciStartsL ps cs else none

/-- The extension the tag pattern captures from the segment between
`<attached:` and the first `>`: greedy `[^>]+\.(\w+)` resolves to the
last dot of the segment, which must have at least one character before it
and a nonempty all-word suffix after it. -/
def lastDotExt (seg : List Char) : Option (List Char) :=
  let r := seg.reverse
  let w := r.takeWhile isWordCh
  if w.isEmpty then none else
  match r.dropWhile isWordCh with
  | '.' :: pre => if pre.isEmpty then none else some w.reverse
  | _ => none

/-- The segment before the first `c` of `l`, when `c` occurs. -/
def segUntil (c : Char) (l : List Char) : Option (List Char) :=
  if l.contains c then some (l.takeWhile (· != c)) else none

/-- One attempt of `ATTACHED_TAG_RE = <attached:\s*[^>]+\.(\w+)>` (re.I)
at the current position. -/
def attachedTagAt (l : List Char) : Option (List Char) :=
  match ciStartsL "<attached:".toList l with
  | some rest =>
    match segUntil '>' rest with
    | some seg => lastDotExt seg
    | none => none
  | none => none

/-- `ATTACHED_TAG_RE.search(text)`, leftmost occurrence; yields the
captured extension group. -/
def findAttachedTag : List Char → Option (List Char)
  | [] => none
  | c :: t =>
    match attachedTagAt (c :: t) with
    | some e => some e
    | none => findAttachedTag t

/-- The character class `[A-Za-z0-9_-]` of the file-attachment name group. -/
def isNameCh (c : Char) : Bool :=
  ('a' ≤ c ∧ c ≤ 'z') || ('A' ≤ c ∧ c ≤ 'Z') || c.isDigit || c == '_' || c == '-'

/-- The character class `[A-Za-z0-9]` of the file-attachment extension group. -/
def isAlnumCh (c : Char) : Bool :=
  ('a' ≤ c ∧ c ≤ 'z') || ('A' ≤ c ∧ c ≤ 'Z') || c.isDigit

/-- One attempt of
`FILE_ATTACHMENT_RE = ([A-Za-z0-9_-]+)\.([A-Za-z0-9]+)\s+\(file attached\)`
(re.I) at the current position; yields the extension group. -/
def fileAttachAt (l : List Char) : Option (List Char) :=
  let r1 := l.takeWhile isNameCh
  if r1.isEmpty then none else
  match l.dropWhile isNameCh with
  | '.' :: l2 =>
    let r2 := l2.takeWhile isAlnumCh
    if r2.isEmpty then none else
    let l3 := l2.dropWhile isAlnumCh
    let ws := l3.takeWhile isPySpace
    if ws.isEmpty then none else
    match ciStartsL "(file attached)".toList (l3.dropWhile isPySpace) with
    | some _ => some r2
    | none => none
  | _ => none

/-- `FILE_ATTACHMENT_RE.search(text)`, leftmost occurrence. -/
def findFileAttach : List Char → Option (List Char)
  | [] => none
  | c :: t =>
    match fileAttachAt (c :: t) with
    | some e => some e
    | none => findFileAttach t

/-- `ChatParser._detect_attachment` (parser.py lines 235-244): the tag
pattern first; when it matches, its extension's mapping is returned even
when that mapping is `none`. -/
def detectAttachment (text : List Char) : Option AttachKind :=
  match findAttachedTag text with
  | some ext => extToType (pyLowerL ext)
  | none =>
    match findFileAttach text with
    | some ext => extToType (pyLowerL ext)
    | none => none

/-- `ChatParser._classify_message` (parser.py lines 210-233). -/
def classifyMessage (text : List Char) (exportFormat : Option ExportFormat) :
    MessageKind :=
  let lowered := pyLowerL text
  if containsSub "audio omit".toList lowered
      || containsSub "nota de voz".toList lowered then .voice
  else if containsSub VOICE_ONCE_PLACEHOLDER lowered then .voice
  else if containsSub VIDEO_NOTE_PLACEHOLDER lowered then
    (if exportFormat == some .ios then .video else .video_note)
  else if containsSub MEDIA_PLACEHOLDER lowered then .photo
  else
    match detectAttachment text with
    | some .voice => .voice
    | some .video => .video
    | some .video_note => .video_note
    | some .photo => .photo
    | some .sticker => .sticker
    | none =>
      if containsSub "sticker omit".toList lowered then .sticker else .text

/-- `ChatParser._is_system_text` (parser.py lines 258-261). -/
def isSystemText (text : List Char) : Bool :=
  let normalized := pyLowerL (stripSetL ['‎', '‏', ' '] text)
  SYSTEM_TEXT_MARKERS.any (fun marker => containsSub marker normalized)

/-! ## The message reconstructor (`ChatParser.parse`, parser.py lines 69-208) -/

/-- `ParticipantTotals` (parser.py lines 57-66). -/
structure ParticipantTotals where
  message_count : Nat := 0
  characters : Nat := 0
  longest_text : List Char := []
  voice_notes : Nat := 0
  videos : Nat := 0
  video_notes : Nat := 0
  photos : Nat := 0
  stickers : Nat := 0
deriving DecidableEq, Repr

/-- The `current` dict: the pending message between start and finalize. -/
structure Pending where
  sender : List Char
  text : List Char
  timestamp : DateTime
  format : Option ExportFormat
deriving DecidableEq, Repr

/-- The loop state of `ChatParser.parse`. -/
structure ParseState where
  totals : List (List Char × ParticipantTotals) := []
  texts : List (List Char) := []
  years : List (Nat × Nat) := []
  current : Option Pending := none
  exportFormat : Option ExportFormat := none
  lastTimestamp : Option DateTime := none
deriving DecidableEq, Repr

/-- Why a parse run fails: an unparseable date/time (`ValueError` from
`parse_timestamp`) or no recognized line at all (`DomainError`,
parser.py lines 130-131). -/
inductive ParseError where
  | badTimestamp (joined : List Char)
  | undetermined
deriving DecidableEq, Repr

/-- Get-or-insert update of an insertion-ordered dict (`dict.setdefault`
followed by mutation, and `Counter.__getitem__` += 1). -/
def bumpAssoc {K V : Type} [DecidableEq K] (k : K) (f : V → V) (dflt : V) :
    List (K × V) → List (K × V)
  | [] => [(k, f dflt)]
  | (k', v) :: t => if k = k' then (k', f v) :: t else (k', v) :: bumpAssoc k f dflt t

/-- Python `a or b` on two optional values whose left operand, when
present, is truthy. -/
def orOpt {α : Type} : Option α → Option α → Option α
  | some a, _ => some a
  | none, b => b

/-- `ChatParser._record_text` (parser.py lines 263-268). -/
def recordTextP (stats : ParticipantTotals) (text : List Char) : ParticipantTotals :=
  let length := text.length
  let stats := { stats with characters := stats.characters + length }
  if stats.longest_text.length < length then { stats with longest_text := text }
  else stats

/-- `ChatParser._record_kind` (parser.py lines 270-281). -/
def recordKindP (stats : ParticipantTotals) (kind : MessageKind) : ParticipantTotals :=
  match kind with
  | .voice => { stats with voice_notes := stats.voice_notes + 1 }
  | .video => { stats with videos := stats.videos + 1 }
  | .video_note => { stats with video_notes := stats.video_notes + 1 }
  | .photo => { stats with photos := stats.photos + 1 }
  | .sticker => { stats with stickers := stats.stickers + 1 }
  | .text => stats

/-- `ChatParser._finalize_message` (parser.py lines 187-208), acting on
the loop state (it never touches `current`, `export_format` or
`last_timestamp`). -/
def finalizeMessage (c : Pending) (st : ParseState) : ParseState :=
  let formatHint := orOpt c.format st.exportFormat
  let kind := classifyMessage c.text formatHint
  { st with
    totals := bumpAssoc c.sender
      (fun s =>
        let s := { s with message_count := s.message_count + 1 }
        if kind == .text then recordTextP s c.text else recordKindP s kind)
      {} st.totals,
    years := bumpAssoc c.timestamp.year (· + 1) 0 st.years,
    texts := if kind == .text then st.texts ++ [c.text] else st.texts }

/-- `ChatParser._should_start_new` (parser.py lines 171-185).  The source
re-parses the timestamp from the match before the guards run (raising on
failure); here the caller parses it first and passes it in. -/
def shouldStartNew (matchedFormat : Option ExportFormat) (timestamp : DateTime)
    (exportFormat : Option ExportFormat) (lastTimestamp : Option DateTime) : Bool :=
  match matchedFormat with
  | none => false
  | some mf =>
    if (match lastTimestamp with
        | some lt => dtLt timestamp lt
        | none => false) then false
    else if (match exportFormat with
        | some ef => mf != ef && mf == ExportFormat.ios
        | none => false) then false
    else true

/-- The continuation branch (parser.py lines 120-123): append the
stripped line to the pending text, a blank line contributing nothing; a
line with no pending message is discarded. -/
def continuationStep (st : ParseState) (normalized : List Char) : ParseState :=
  match st.current with
  | some c =>
    let addition := pyStripL normalized
    if addition.isEmpty then st
    else { st with current := some { c with text := c.text ++ '\n' :: addition } }
  | none => st

/-- One iteration of the `for raw_line in handle` loop of
`ChatParser.parse` (parser.py lines 79-123). -/
def stepLine (st : ParseState) (rawLine : List Char) : Except ParseError ParseState :=
  let line := rstripNl rawLine
  let normalized := normalizeLine line
  match matchTimestampFn normalized st.exportFormat with
  | some (g, mf) =>
    match parse_timestamp g.dateStr g.timeStr with
    | none => .error (.badTimestamp (g.dateStr ++ ' ' :: g.timeStr))
    | some ts =>
      if shouldStartNew (some mf) ts st.exportFormat st.lastTimestamp then
        let st1 := match st.current with
          | some c => finalizeMessage c st
          | none => st
        let st2 := { st1 with exportFormat := orOpt st1.exportFormat (some mf) }
        let rest := g.rest
        if rest.contains ':' then
          let sender := pyStripL (rest.takeWhile (· != ':'))
          let text := pyStripL ((rest.dropWhile (· != ':')).tail)
          if isSystemText text then
            .ok { st2 with current := none, lastTimestamp := some ts }
          else
            .ok { st2 with
              current := some ⟨sender, text, ts, orOpt (some mf) st2.exportFormat⟩,
              lastTimestamp := some ts }
        else
          .ok { st2 with current := none, lastTimestamp := some ts }
      else
        .ok (continuationStep st normalized)
  | none => .ok (continuationStep st normalized)

/-- The whole line loop. -/
def processLines (st : ParseState) : List (List Char) → Except ParseError ParseState
  | [] => .ok st
  | l :: ls =>
    match stepLine st l with
    | .error e => .error e
    | .ok st' => processLines st' ls

/-- What a successful run yields (the data `Conversation.create` is
handed, parser.py lines 133-154). -/
structure ParsedChat where
  totals : List (List Char × ParticipantTotals)
  years : List (Nat × Nat)
  texts : List (List Char)
  exportFormat : ExportFormat
deriving DecidableEq, Repr

/-- End of stream (parser.py lines 125-131): flush the pending message,
then fail when no export format was ever determined. -/
def finishParse (st : ParseState) : Except ParseError ParsedChat :=
  let st := match st.current with
    | some c => finalizeMessage c st
    | none => st
  match st.exportFormat with
  | none => .error .undetermined
  | some f => .ok ⟨st.totals, st.years, st.texts, f⟩

/-- `ChatParser.parse` on a list of input lines. -/
def parseChat (lines : List (List Char)) : Except ParseError ParsedChat :=
  match processLines {} lines with
  | .error e => .error e
  | .ok st => finishParse st

/-! ## The domain aggregate (`app/domain/models.py`) -/

/-- `ParticipantStats` (models.py lines 21-32). -/
structure ParticipantStats where
  name : String
  message_count : Nat := 0
  characters : Nat := 0
  longest_text_length : Nat := 0
  longest_text : String := ""
  voice_notes : Nat := 0
  videos : Nat := 0
  video_notes : Nat := 0
  photos : Nat := 0
  stickers : Nat := 0
deriving DecidableEq, Repr

/-- `ParticipantStats.record_text` (models.py lines 34-39). -/
def mRecordText (s : ParticipantStats) (text : String) : ParticipantStats :=
  let length := text.length
  let s := { s with characters := s.characters + length }
  if s.longest_text_length < length then
    { s with longest_text_length := length, longest_text := text }
  else s

/-- `ParticipantStats.record_kind` (models.py lines 41-51). -/
def mRecordKind (s : ParticipantStats) (kind : MessageKind) : ParticipantStats :=
  match kind with
  | .voice => { s with voice_notes := s.voice_notes + 1 }
  | .video => { s with videos := s.videos + 1 }
  | .video_note => { s with video_notes := s.video_notes + 1 }
  | .photo => { s with photos := s.photos + 1 }
  | .sticker => { s with stickers := s.stickers + 1 }
  | .text => s

/-- `Conversation` (models.py lines 54-61); the participants dict is an
insertion-ordered association list. -/
structure ConvM where
  chat_name : String := ""
  participants : List (String × ParticipantStats) := []
  year_counts : List (Nat × Nat) := []
  text_messages : List String := []
  export_format : String := ""
  total_messages : Nat := 0
deriving DecidableEq, Repr

/-- `Conversation.record_event` (models.py lines 68-79); `get_participant`
is the get-or-insert that `bumpAssoc` performs, with
`ParticipantStats(name=name)` as the fresh value. -/
def recordEvent (conv : ConvM) (sender : String) (timestamp : DateTime)
    (text : String) (kind : MessageKind) : ConvM :=
  { conv with
    participants := bumpAssoc sender
      (fun s =>
        let s := { s with message_count := s.message_count + 1 }
        if kind == .text then mRecordText s text else mRecordKind s kind)
      { name := sender } conv.participants,
    total_messages := conv.total_messages + 1,
    year_counts := bumpAssoc timestamp.year (· + 1) 0 conv.year_counts,
    text_messages :=
      if kind == .text ∧ text ≠ "" then conv.text_messages ++ [text]
      else conv.text_messages }

/-! ## The summarizer (`app/application/services.py`) -/

/-- `STOPWORDS` (services.py lines 9-210). -/
def STOPWORDS : List String :=
  ["de", "la", "que", "el", "en", "y", "a", "los", "del", "se", "las", "por",
   "un", "para", "con", "no", "una", "su", "al", "lo", "como", "más", "pero",
   "sus", "le", "ya", "o", "este", "sí", "porque", "esta", "entre", "cuando",
   "muy", "sin", "sobre", "también", "me", "hasta", "hay", "donde", "quien",
   "desde", "todo", "nos", "durante", "todos", "uno", "les", "ni", "contra",
   "otros", "ese", "eso", "ante", "ellos", "e", "esto", "mí", "antes",
   "algunos", "qué", "unos", "yo", "otro", "otras", "otra", "él", "tanto",
   "esa", "estos", "mucho", "quienes", "nada", "muchos", "cual", "poco",
   "ella", "estar", "estas", "algunas", "algo", "nosotros", "mi", "mis",
   "tú", "te", "ti", "tu", "tus", "ellas", "nosotras", "vosotros",
   "vosotras", "os", "mío", "mía", "míos", "mías", "tuyo", "tuya", "tuyos",
   "tuyas", "suyo", "suya", "suyos", "suyas", "nuestro", "nuestra",
   "nuestros", "nuestras", "vuestro", "vuestra", "vuestros", "vuestras",
   "esos", "esas", "estoy", "estás", "está", "estamos", "estáis", "están",
   "esté", "estés", "estemos", "estén", "estaré", "estarás", "estará",
   "estaremos", "estarán", "estaría", "estarías", "estaríamos", "estarían",
   "fue", "fueron", "fui", "fuimos", "son", "es", "ser", "era", "puede",
   "puedo", "the", "and", "for", "that", "this", "are", "was", "were",
   "will", "with", "you", "your", "they", "them", "have", "has", "had",
   "from", "not", "but", "about", "their", "there", "can", "could", "would",
   "should", "it\x27s", "its", "i\x27m", "i\x27ll", "i\x27ve", "we", "our",
   "ours", "be", "is", "to", "in", "of", "on", "as", "it", "at", "by",
   "or", "if", "so", "do", "did", "does", "am", "an"]

/-- The token character class `[A-Za-zÀ-ſ]` of `tokenize`. -/
def isTokenCh (c : Char) : Bool :=
  ('a' ≤ c ∧ c ≤ 'z') || ('A' ≤ c ∧ c ≤ 'Z')
    || (0xC0 ≤ c.toNat ∧ c.toNat ≤ 0x17F)

/-- Maximal runs of characters satisfying `p` (`re.findall` with a
one-class `+` pattern). -/
def runsOf (p : Char → Bool) (cur : List Char) : List Char → List (List Char)
  | [] => if cur.isEmpty then [] else [cur.reverse]
  | c :: t =>
    if p c then runsOf p (c :: cur) t
    else if cur.isEmpty then runsOf p [] t
    else cur.reverse :: runsOf p [] t

/-- `tokenize` (services.py lines 213-215). -/
def tokenize (text : String) : List String :=
  ((runsOf isTokenCh [] (pyLowerL text.toList)).map fun r => String.mk r).filter
    fun w => !(STOPWORDS.contains w) && 2 < w.length

/-- `word_counter.update(tokenize(text))` for each text
(services.py lines 258-260): an insertion-ordered counter. -/
def buildCounter (corpus : List String) : List (String × Nat) :=
  corpus.foldl (fun c t => (tokenize t).foldl (fun c w => bumpAssoc w (· + 1) 0 c) c) []

/-- Stable descending insertion by count: the element being inserted is
the earlier one, so it passes only strictly greater counts. -/
def insertDesc (x : String × Nat) : List (String × Nat) → List (String × Nat)
  | [] => [x]
  | y :: t => if y.2 ≤ x.2 then x :: y :: t else y :: insertDesc x t

/-- The stable descending sort by count that `Counter.most_common`
performs (`heapq.nlargest` is documented equivalent to
`sorted(..., key=count, reverse=True)[:n]`, and is stable). -/
def sortDesc (l : List (String × Nat)) : List (String × Nat) :=
  l.foldr insertDesc []

/-- `word_counter.most_common(top_n)`. -/
def mostCommon (n : Nat) (l : List (String × Nat)) : List (String × Nat) :=
  (sortDesc l).take n

/-- The `top_words` component of `ConversationSummarizer.summarize`
(services.py lines 258-280). -/
def topWords (n : Nat) (corpus : List String) : List (String × Nat) :=
  mostCommon n (buildCounter corpus)

/-! ## Highlight selection (`app.py`) -/

/-- `_top_person` (app.py lines 60-63): `sorted(items, key=(-count,
name))[0]` is the minimum under that key, i.e. the maximal count with
the lexicographically least name among ties; an empty dict yields
`("N/A", 0)`. -/
def pickBest (best q : String × Nat) : String × Nat :=
  if best.2 < q.2 ∨ (q.2 = best.2 ∧ q.1 < best.1) then q else best

def topPerson (l : List (String × Nat)) : String × Nat :=
  match l with
  | [] => ("N/A", 0)
  | p :: t => t.foldl pickBest p

/-- `r` ranks at least as high as `p` under the sort key `(-count, name)`
of `_top_person`: a strictly greater count, or an equal count and a name
that is not later. -/
def ranksAbove (r p : String × Nat) : Prop :=
  p.2 < r.2 ∨ (p.2 = r.2 ∧ r.1 ≤ p.1)

/-- A rendered highlight: the "No data" sentinel, or the selected
participant with the category value (the emoji/format-string dressing of
`build_summary_context` carries no further information). -/
inductive Highlight where
  | noData
  | top (person : String) (value : Nat)
deriving DecidableEq, Repr

/-- One category of the highlight loop of `build_summary_context`
(app.py lines 117-134): the sentinel is emitted when `_top_person`
returned the `"N/A"` marker or the selected value is zero. -/
def buildHighlight (counter : List (String × Nat)) : Highlight :=
  let p := topPerson counter
  if p.1 = "N/A" ∨ p.2 = 0 then .noData else .top p.1 p.2

/-- The five highlight categories of `build_summary_context`
(app.py lines 109-115), keyed by the per-person maps `summarize`
builds from the participant stats. -/
def buildHighlights (participants : List (String × ParticipantStats)) :
    List Highlight :=
  [buildHighlight (participants.map fun p => (p.1, p.2.voice_notes)),
   buildHighlight (participants.map fun p => (p.1, p.2.longest_text_length)),
   buildHighlight (participants.map fun p => (p.1, p.2.stickers)),
   buildHighlight (participants.map fun p => (p.1, p.2.photos)),
   buildHighlight (participants.map fun p => (p.1, p.2.characters))]

/-! ## Derived quantities the theorems speak about -/

/-- Total of a year → count map. -/
def sumYears (l : List (Nat × Nat)) : Nat := (l.map (·.2)).sum

/-- Total of the parser totals' message counts. -/
def sumCounts (l : List (List Char × ParticipantTotals)) : Nat :=
  (l.map (fun p => p.2.message_count)).sum

/-- Total of the domain participants' message counts. -/
def sumCountsM (l : List (String × ParticipantStats)) : Nat :=
  (l.map (fun p => p.2.message_count)).sum

/-- Dictionary lookup (first binding of a key). -/
def lookupAssoc {K V : Type} [DecidableEq K] (k : K) : List (K × V) → Option V
  | [] => none
  | (k', v) :: t => if k = k' then some v else lookupAssoc k t

/-- A counter's value at a key, zero when absent. -/
def getCount {K : Type} [DecidableEq K] (k : K) (l : List (K × Nat)) : Nat :=
  (lookupAssoc k l).getD 0

/-- The running-maximum fold that longest-text tracking performs,
abstracted over the length function. -/
def foldLongest {α : Type} (len : α → Nat) (acc : α) (ts : List α) : α :=
  ts.foldl (fun cur t => if len cur < len t then t else cur) acc

/-- The maximum `len` over a list. -/
def maxLen {α : Type} (len : α → Nat) (ts : List α) : Nat :=
  ts.foldr (fun t m => max (len t) m) 0

/-- First occurrences, in order, of the members of a list (the key order
of an insertion-ordered dict built from it). -/
def firstOccur (toks : List String) : List String :=
  toks.foldl (fun acc w => if acc.contains w then acc else acc ++ [w]) []

/-- The run of a parse from an arbitrary loop state (generalizing
`parseChat`, which runs it from the initial state). -/
def runFrom (st : ParseState) (lines : List (List Char)) : Except ParseError ParsedChat :=
  match processLines st lines with
  | .error e => .error e
  | .ok st' => finishParse st'

/-- The year a two-or-four digit year field denotes (two digits through
the century rule). -/
def specYearVal (y : List Char) : Nat :=
  if y.length = 2 then
    (if natOfDigits y < 69 then 2000 + natOfDigits y else 1900 + natOfDigits y)
  else natOfDigits y

/-- The specification's description of an accepted date/time (spec §4.1,
claim C7): one of the four combinations of a two-or-four-digit year with
seconds present or absent, denoting a valid calendar date and a valid
24-hour time.  Stated over the matched digit fields; compared against the
source-derived `parse_timestamp`. -/
def specTimestampAccepts (d m y h mi : List Char) (sec : Option (List Char)) : Prop :=
  (y.length = 2 ∨ y.length = 4) ∧
  1 ≤ specYearVal y ∧
  1 ≤ natOfDigits m ∧ natOfDigits m ≤ 12 ∧
  1 ≤ natOfDigits d ∧ natOfDigits d ≤ daysInMonth (specYearVal y) (natOfDigits m) ∧
  natOfDigits h ≤ 23 ∧ natOfDigits mi ≤ 59 ∧
  (match sec with
   | some s => natOfDigits s ≤ 59
   | none => True)

/-! ## Helper lemmas -/

theorem startsWithL_iff (n : List Char) : ∀ l, startsWithL n l = true ↔ ∃ t, l = n ++ t := by
  induction n with
  | nil => intro l; simp [startsWithL]
  | cons a as ih =>
    intro l
    cases l with
    | nil => simp [startsWithL]
    | cons b bs =>
      simp only [startsWithL, Bool.and_eq_true, beq_iff_eq, ih, List.cons_append,
        List.cons.injEq]
      constructor
      · rintro ⟨rfl, t, rfl⟩; exact ⟨t, rfl, rfl⟩
      · rintro ⟨t, rfl, rfl⟩; exact ⟨rfl, t, rfl⟩

theorem containsSub_iff (n : List Char) : ∀ l, containsSub n l = true ↔ ∃ s t, l = s ++ n ++ t := by
  intro l
  induction l with
  | nil =>
    simp only [containsSub, startsWithL_iff]
    constructor
    · rintro ⟨t, h⟩; exact ⟨[], t, by simpa using h⟩
    · rintro ⟨s, t, h⟩
      rcases List.append_eq_nil.mp (List.append_eq_nil.mp h.symm).1 with ⟨rfl, rfl⟩
      exact ⟨t, by simpa using h⟩
  | cons c cl ih =>
    simp only [containsSub, Bool.or_eq_true, startsWithL_iff, ih]
    constructor
    · rintro (⟨t, h⟩ | ⟨s, t, rfl⟩)
      · exact ⟨[], t, by simpa using h⟩
      · exact ⟨c :: s, t, rfl⟩
    · rintro ⟨s, t, h⟩
      cases s with
      | nil => exact Or.inl ⟨t, by simpa using h⟩
      | cons x xs =>
        simp only [List.cons_append, List.cons.injEq] at h
        exact Or.inr ⟨xs, t, h.2⟩

theorem containsSub_map (f : Char → Char) (n l : List Char) (hn : n.map f = n)
    (h : containsSub n l = true) : containsSub n (l.map f) = true := by
  rcases (containsSub_iff n l).mp h with ⟨s, t, rfl⟩
  exact (containsSub_iff n _).mpr ⟨s.map f, t.map f, by simp [hn]⟩

/-! ## Claim C1 -/

/-- Claim C1: with the monotonicity guard not firing, `_should_start_new`
rejects a matched line exactly when a format is locked, the matched
dialect differs from it, and the matched dialect is iOS (dialect A); in
particular an Android-shaped match after locking to iOS is not rejected
by this rule. -/
theorem shouldStartNew_asymmetric_lock (f : ExportFormat) (ts : DateTime)
    (ef : Option ExportFormat) (lt : Option DateTime)
    (hmono : (match lt with | some l => dtLt ts l | none => false) = false) :
    shouldStartNew (some f) ts ef lt = false ↔
      f = .ios ∧ ∃ e, ef = some e ∧ f ≠ e := by
  simp only [shouldStartNew, hmono, if_false, Bool.false_eq_true]
  cases ef with
  | none => simp
  | some e => cases e <;> cases f <;> simp

/-- Claim C1, witness: after locking to Android, an iOS-shaped match is
rejected; after locking to iOS, an Android-shaped match is accepted. -/
theorem shouldStartNew_asymmetric_lock_witness :
    shouldStartNew (some .ios) ⟨2024, 5, 12, 9, 15, 0⟩ (some .android) none = false ∧
    shouldStartNew (some .android) ⟨2024, 5, 12, 9, 15, 0⟩ (some .ios) none = true := by
  constructor
  · exact (shouldStartNew_asymmetric_lock .ios ⟨2024, 5, 12, 9, 15, 0⟩
      (some .android) none rfl).mpr ⟨rfl, .android, rfl, by decide⟩
  · have h := shouldStartNew_asymmetric_lock .android ⟨2024, 5, 12, 9, 15, 0⟩
      (some .ios) none rfl
    cases hb : shouldStartNew (some .android) ⟨2024, 5, 12, 9, 15, 0⟩ (some .ios) none
    · exact absurd (h.mp hb).1 (by decide)
    · rfl

/-! ## Claim C3 -/

/-- Claim C3: the classifier is total, and on the fixed placeholders it
maps "video note omitted" to Video under iOS and VideoNote under any
other dialect (none included), "media omitted" (below the voice and
video-note rules) to Photo, and "sticker omit" (below every other rule)
to Sticker. -/
theorem classify_placeholder_cases (text : List Char) (ef : Option ExportFormat) :
    (containsSub VIDEO_NOTE_PLACEHOLDER text = true →
      containsSub "audio omit".toList (pyLowerL text) = false →
      containsSub "nota de voz".toList (pyLowerL text) = false →
      containsSub VOICE_ONCE_PLACEHOLDER (pyLowerL text) = false →
      classifyMessage text ef =
        (if ef == some .ios then MessageKind.video else MessageKind.video_note)) ∧
    (containsSub MEDIA_PLACEHOLDER text = true →
      containsSub "audio omit".toList (pyLowerL text) = false →
      containsSub "nota de voz".toList (pyLowerL text) = false →
      containsSub VOICE_ONCE_PLACEHOLDER (pyLowerL text) = false →
      containsSub VIDEO_NOTE_PLACEHOLDER (pyLowerL text) = false →
      classifyMessage text ef = MessageKind.photo) ∧
    (containsSub "sticker omit".toList text = true →
      containsSub "audio omit".toList (pyLowerL text) = false →
      containsSub "nota de voz".toList (pyLowerL text) = false →
      containsSub VOICE_ONCE_PLACEHOLDER (pyLowerL text) = false →
      containsSub VIDEO_NOTE_PLACEHOLDER (pyLowerL text) = false →
      containsSub MEDIA_PLACEHOLDER (pyLowerL text) = false →
      detectAttachment text = none →
      classifyMessage text ef = MessageKind.sticker) := by
  refine ⟨?_, ?_, ?_⟩
  · intro hvn h1 h2 h3
    have hv : containsSub VIDEO_NOTE_PLACEHOLDER (pyLowerL text) = true :=
      containsSub_map pyLowerChar _ _ (by decide) hvn
    simp_all [classifyMessage]
  · intro hm h1 h2 h3 h4
    have hv : containsSub MEDIA_PLACEHOLDER (pyLowerL text) = true :=
      containsSub_map pyLowerChar _ _ (by decide) hm
    simp_all [classifyMessage]
  · intro hs h1 h2 h3 h4 h5 hatt
    have hv : containsSub "sticker omit".toList (pyLowerL text) = true :=
      containsSub_map pyLowerChar _ _ (by decide) hs
    simp_all [classifyMessage]

/-- Claim C3, witness: the classifier fixtures of spec §8 evaluate as
claimed. -/
theorem classify_placeholder_cases_witness :
    classifyMessage "<video note omitted>".toList (some .ios) = MessageKind.video ∧
    classifyMessage "<video note omitted>".toList (some .android) = MessageKind.video_note ∧
    classifyMessage "<video note omitted>".toList none = MessageKind.video_note ∧
    classifyMessage "<media omitted>".toList (some .android) = MessageKind.photo ∧
    classifyMessage "sticker omit ;)".toList (some .android) = MessageKind.sticker := by
  refine ⟨?_, ?_, ?_, ?_, ?_⟩
  · have h := (classify_placeholder_cases "<video note omitted>".toList (some .ios)).1
      (by decide) (by decide) (by decide) (by decide)
    simpa using h
  · have h := (classify_placeholder_cases "<video note omitted>".toList (some .android)).1
      (by decide) (by decide) (by decide) (by decide)
    simpa using h
  · have h := (classify_placeholder_cases "<video note omitted>".toList none).1
      (by decide) (by decide) (by decide) (by decide)
    simpa using h
  · exact (classify_placeholder_cases "<media omitted>".toList (some .android)).2.1
      (by decide) (by decide) (by decide) (by decide) (by decide)
  · exact (classify_placeholder_cases "sticker omit ;)".toList (some .android)).2.2
      (by decide) (by decide) (by decide) (by decide) (by decide) (by decide) (by decide)

/-! ## Claims C10 and C5: bump lemmas -/

theorem lookupAssoc_bumpAssoc {K V : Type} [DecidableEq K] (k : K) (f : V → V) (d : V) :
    ∀ l : List (K × V),
      lookupAssoc k (bumpAssoc k f d l) = some (f ((lookupAssoc k l).getD d)) := by
  intro l
  induction l with
  | nil => simp [bumpAssoc, lookupAssoc]
  | cons p t ih =>
    obtain ⟨k', v⟩ := p
    by_cases h : k = k' <;> simp [bumpAssoc, lookupAssoc, h, ih]

theorem sum_map_bumpAssoc {K V : Type} [DecidableEq K] (k : K) (f : V → V) (d : V)
    (g : V → Nat) (hf : ∀ v, g (f v) = g v + 1) (hd : g d = 0) :
    ∀ l : List (K × V),
      ((bumpAssoc k f d l).map (fun p => g p.2)).sum
        = (l.map (fun p => g p.2)).sum + 1 := by
  intro l
  induction l with
  | nil => simp [bumpAssoc, hf, hd]
  | cons p t ih =>
    obtain ⟨k', v⟩ := p
    by_cases h : k = k' <;> simp [bumpAssoc, h, hf, ih] <;> omega

/-! ## Claim C10 -/

/-- Claim C10: `Conversation.record_event` with a Text kind and an empty
body bumps the sender's message count, the total and the year bucket but
leaves the text corpus unchanged; a non-empty Text body is appended; the
parser's own finalize step appends every Text body, empty or not. -/
theorem recordEvent_empty_text_frame (conv : ConvM) (sender : String) (ts : DateTime) :
    ((recordEvent conv sender ts "" .text).text_messages = conv.text_messages) ∧
    ((recordEvent conv sender ts "" .text).total_messages = conv.total_messages + 1) ∧
    (getCount ts.year (recordEvent conv sender ts "" .text).year_counts
      = getCount ts.year conv.year_counts + 1) ∧
    (((lookupAssoc sender (recordEvent conv sender ts "" .text).participants).getD
        { name := sender }).message_count
      = ((lookupAssoc sender conv.participants).getD { name := sender }).message_count
          + 1) ∧
    (∀ t : String, t ≠ "" →
      (recordEvent conv sender ts t .text).text_messages
        = conv.text_messages ++ [t]) ∧
    (∀ (c : Pending) (st : ParseState),
      classifyMessage c.text (orOpt c.format st.exportFormat) = .text →
      (finalizeMessage c st).texts = st.texts ++ [c.text]) := by
  refine ⟨?_, ?_, ?_, ?_, ?_, ?_⟩
  · simp [recordEvent]
  · simp [recordEvent]
  · simp [recordEvent, getCount, lookupAssoc_bumpAssoc]
  · simp only [recordEvent, lookupAssoc_bumpAssoc, Option.getD_some]
    simp [mRecordText]
  · intro t ht; simp [recordEvent, ht]
  · intro c st hk; simp [finalizeMessage, hk]

/-! ## Claim C5 -/

/-- Claim C5: every finalize step (parser) and every `record_event`
(domain) increments exactly one year bucket and exactly one
participant's message count (and, for the domain, the total by one), so
the equality of the year total, the message total and the per-participant
total is preserved. -/
theorem finalize_preserves_totals (c : Pending) (st : ParseState) (conv : ConvM)
    (sender : String) (ts : DateTime) (text : String) (kind : MessageKind) :
    (sumYears (finalizeMessage c st).years = sumYears st.years + 1) ∧
    (sumCounts (finalizeMessage c st).totals = sumCounts st.totals + 1) ∧
    (sumYears st.years = sumCounts st.totals →
      sumYears (finalizeMessage c st).years = sumCounts (finalizeMessage c st).totals) ∧
    (sumYears (recordEvent conv sender ts text kind).year_counts
      = sumYears conv.year_counts + 1) ∧
    ((recordEvent conv sender ts text kind).total_messages
      = conv.total_messages + 1) ∧
    (sumCountsM (recordEvent conv sender ts text kind).participants
      = sumCountsM conv.participants + 1) ∧
    (sumYears conv.year_counts = conv.total_messages ∧
        conv.total_messages = sumCountsM conv.participants →
      sumYears (recordEvent conv sender ts text kind).year_counts
          = (recordEvent conv sender ts text kind).total_messages ∧
        (recordEvent conv sender ts text kind).total_messages
          = sumCountsM (recordEvent conv sender ts text kind).participants) := by
  have hyearsP : sumYears (finalizeMessage c st).years = sumYears st.years + 1 := by
    simp only [finalizeMessage, sumYears]
    exact sum_map_bumpAssoc _ _ _ id (fun v => rfl) rfl _
  have hcountsP : sumCounts (finalizeMessage c st).totals = sumCounts st.totals + 1 := by
    simp only [finalizeMessage, sumCounts]
    refine sum_map_bumpAssoc _ _ _ (fun s : ParticipantTotals => s.message_count) ?_ rfl _
    intro v
    cases hk : classifyMessage c.text (orOpt c.format st.exportFormat) == .text
    · simp only [hk, Bool.false_eq_true, if_false]
      cases classifyMessage c.text (orOpt c.format st.exportFormat) <;> simp [recordKindP]
    · simp only [hk, if_true]
      unfold recordTextP
      dsimp only
      split <;> rfl
  have hyearsM : sumYears (recordEvent conv sender ts text kind).year_counts
      = sumYears conv.year_counts + 1 := by
    simp only [recordEvent, sumYears]
    exact sum_map_bumpAssoc _ _ _ id (fun v => rfl) rfl _
  have hcountsM : sumCountsM (recordEvent conv sender ts text kind).participants
      = sumCountsM conv.participants + 1 := by
    simp only [recordEvent, sumCountsM]
    refine sum_map_bumpAssoc _ _ _ (fun s : ParticipantStats => s.message_count) ?_ rfl _
    intro v
    cases hk : kind == MessageKind.text
    · simp only [hk, Bool.false_eq_true, if_false]
      cases kind <;> simp [mRecordKind]
    · simp only [hk, if_true]
      unfold mRecordText
      dsimp only
      split <;> rfl
  refine ⟨hyearsP, hcountsP, ?_, hyearsM, by simp [recordEvent], hcountsM, ?_⟩
  · intro h; omega
  · intro h
    have := h.1; have := h.2
    constructor <;> simp [recordEvent] at * <;> omega

/-! ## Claim C6 -/

theorem maxLen_cons {α : Type} (len : α → Nat) (t : α) (ts : List α) :
    maxLen len (t :: ts) = max (len t) (maxLen len ts) := rfl

theorem foldLongest_cons {α : Type} (len : α → Nat) (acc t : α) (ts : List α) :
    foldLongest len acc (t :: ts)
      = foldLongest len (if len acc < len t then t else acc) ts := rfl

theorem recordTextP_longest (s : ParticipantTotals) (t : List Char) :
    (recordTextP s t).longest_text
      = if s.longest_text.length < t.length then t else s.longest_text := by
  unfold recordTextP
  dsimp only
  split <;> rfl

theorem mRecordText_longest (s : ParticipantStats) (t : String) :
    (mRecordText s t).longest_text
      = if s.longest_text_length < t.length then t else s.longest_text := by
  unfold mRecordText
  dsimp only
  split <;> rfl

theorem mRecordText_longlen (s : ParticipantStats) (t : String) :
    (mRecordText s t).longest_text_length
      = if s.longest_text_length < t.length then t.length else s.longest_text_length := by
  unfold mRecordText
  dsimp only
  split <;> rfl

theorem foldLongest_skip {α : Type} (len : α → Nat) :
    ∀ (ts : List α) (acc : α), (∀ t ∈ ts, len t ≤ len acc) →
      foldLongest len acc ts = acc := by
  intro ts
  induction ts with
  | nil => intro acc _; rfl
  | cons t ts ih =>
    intro acc h
    have ht : ¬ len acc < len t := by
      have := h t (by simp)
      omega
    simp only [foldLongest, List.foldl_cons, if_neg ht]
    exact ih acc fun x hx => h x (by simp [hx])

theorem le_maxLen_of_mem {α : Type} (len : α → Nat) :
    ∀ (ts : List α) (t : α), t ∈ ts → len t ≤ maxLen len ts := by
  intro ts
  induction ts with
  | nil => simp
  | cons a as ih =>
    intro t ht
    rcases List.mem_cons.mp ht with rfl | h
    · simp [maxLen_cons, Nat.le_max_left]
    · exact le_trans (ih t h) (by simp [maxLen_cons, Nat.le_max_right])

theorem maxLen_attained {α : Type} (len : α → Nat) :
    ∀ ts : List α, ts ≠ [] → ∃ x ∈ ts, maxLen len ts ≤ len x := by
  intro ts
  induction ts with
  | nil => intro h; exact absurd rfl h
  | cons t ts ih =>
    intro _
    cases ts with
    | nil => exact ⟨t, by simp, by simp [maxLen]⟩
    | cons b bs =>
      obtain ⟨x, hx, hmx⟩ := ih (by simp)
      by_cases h : len t ≤ len x
      · exact ⟨x, by simp [hx], by rw [maxLen_cons]; omega⟩
      · exact ⟨t, by simp, by rw [maxLen_cons]; omega⟩

theorem foldLongest_first_max {α : Type} (len : α → Nat) :
    ∀ (ts : List α) (acc : α), len acc < maxLen len ts →
      foldLongest len acc ts
        = ((ts.find? fun t => decide (maxLen len ts ≤ len t)).getD acc) := by
  intro ts
  induction ts with
  | nil => intro acc h; simp [maxLen] at h
  | cons t ts ih =>
    intro acc h
    by_cases hmax : maxLen len (t :: ts) ≤ len t
    · have hfind : (t :: ts).find? (fun t' => decide (maxLen len (t :: ts) ≤ len t'))
          = some t := by
        rw [List.find?_cons_of_pos]
        simpa using hmax
      rw [hfind]
      have hlt : len acc < len t := by omega
      rw [foldLongest_cons, if_pos hlt]
      have hall : ∀ x ∈ ts, len x ≤ len t := by
        intro x hx
        have h1 := le_maxLen_of_mem len ts x hx
        rw [maxLen_cons] at hmax
        omega
      exact foldLongest_skip len ts t hall
    · have hlt : len t < maxLen len ts := by
        rw [maxLen_cons] at hmax h
        omega
      have hfind : (t :: ts).find? (fun t' => decide (maxLen len (t :: ts) ≤ len t'))
          = ts.find? fun t' => decide (maxLen len (t :: ts) ≤ len t') := by
        rw [List.find?_cons_of_neg]
        simpa using hmax
      have hmm : maxLen len (t :: ts) = maxLen len ts := by
        rw [maxLen_cons]; omega
      rw [foldLongest_cons, hfind, hmm]
      have hts : ts ≠ [] := by
        intro hnil
        rw [hnil] at hlt
        simp [maxLen] at hlt
      obtain ⟨x, hx, hmx⟩ := maxLen_attained len ts hts
      have hsome : ∃ y, (ts.find? fun t' => decide (maxLen len ts ≤ len t')) = some y := by
        have : ((ts.find? fun t' => decide (maxLen len ts ≤ len t')).isSome) := by
          rw [List.find?_isSome]
          exact ⟨x, hx, by simpa using hmx⟩
        exact Option.isSome_iff_exists.mp this
      obtain ⟨y, hy⟩ := hsome
      by_cases hacc : len acc < len t
      · rw [if_pos hacc, ih t hlt, hy]
        simp
      · rw [if_neg hacc, ih acc (by omega), hy]

theorem foldLongest_eq_first_max {α : Type} (len : α → Nat) (dflt : α)
    (h0 : len dflt = 0) (hz : ∀ a, len a = 0 → a = dflt) (ts : List α) :
    foldLongest len dflt ts
      = ((ts.find? fun t => decide (maxLen len ts ≤ len t)).getD dflt) := by
  by_cases h : maxLen len ts = 0
  · have hskip : foldLongest len dflt ts = dflt :=
      foldLongest_skip len ts dflt fun t ht => by
        have := le_maxLen_of_mem len ts t ht
        omega
    cases ts with
    | nil => simp [hskip]
    | cons t ts' =>
      have hfind : (t :: ts').find? (fun t' => decide (maxLen len (t :: ts') ≤ len t'))
          = some t := by
        rw [List.find?_cons_of_pos]
        simp [h]
      have hlen : len t = 0 := by
        have := le_maxLen_of_mem len (t :: ts') t (by simp)
        omega
      rw [hskip, hfind, Option.getD_some, hz t hlen]
  · exact foldLongest_first_max len ts dflt (by omega)

theorem foldl_recordTextP_longest :
    ∀ (ts : List (List Char)) (s : ParticipantTotals),
      (ts.foldl recordTextP s).longest_text = foldLongest List.length s.longest_text ts := by
  intro ts
  induction ts with
  | nil => intro s; rfl
  | cons t ts ih =>
    intro s
    rw [List.foldl_cons, ih, recordTextP_longest, foldLongest_cons]

theorem foldl_mRecordText_longest :
    ∀ (ts : List String) (s : ParticipantStats),
      s.longest_text_length = s.longest_text.length →
      (ts.foldl mRecordText s).longest_text = foldLongest String.length s.longest_text ts := by
  intro ts
  induction ts with
  | nil => intro s _; rfl
  | cons t ts ih =>
    intro s hinv
    have hinv2 : (mRecordText s t).longest_text_length
        = (mRecordText s t).longest_text.length := by
      rw [mRecordText_longlen, mRecordText_longest]
      split <;> simp [hinv]
    rw [List.foldl_cons, ih (mRecordText s t) hinv2, mRecordText_longest, hinv,
      foldLongest_cons]

/-- Claim C6: after folding any sequence of Text bodies, the longest-text
field (of the parser's `_record_text` and of the domain's `record_text`
alike) holds the first body whose length attains the maximum; a later
body of equal length never replaces the held one, and a strictly longer
body always does. -/
theorem longest_text_first_max :
    (∀ ts : List (List Char),
      (ts.foldl recordTextP {}).longest_text
        = ((ts.find? fun t => decide (maxLen List.length ts ≤ t.length)).getD [])) ∧
    (∀ (name : String) (ts : List String),
      (ts.foldl mRecordText { name := name }).longest_text
        = ((ts.find? fun t => decide (maxLen String.length ts ≤ t.length)).getD "")) ∧
    (∀ (s : ParticipantTotals) (t : List Char),
      t.length ≤ s.longest_text.length → (recordTextP s t).longest_text = s.longest_text) ∧
    (∀ (s : ParticipantTotals) (t : List Char),
      s.longest_text.length < t.length → (recordTextP s t).longest_text = t) := by
  refine ⟨?_, ?_, ?_, ?_⟩
  · intro ts
    rw [foldl_recordTextP_longest ts {}]
    exact foldLongest_eq_first_max List.length [] rfl
      (fun a ha => List.length_eq_zero.mp ha) ts
  · intro name ts
    rw [foldl_mRecordText_longest ts { name := name } rfl]
    exact foldLongest_eq_first_max String.length "" rfl
      (fun a ha => by
        cases a with
        | mk data =>
          simp only [String.length, List.length_eq_zero] at ha
          simp [ha]) ts
  · intro s t h
    unfold recordTextP
    dsimp only
    rw [if_neg (by omega)]
  · intro s t h
    unfold recordTextP
    dsimp only
    rw [if_pos (by omega)]

/-! ## Claim C9 -/

theorem ranksAbove_refl (p : String × Nat) : ranksAbove p p :=
  Or.inr ⟨rfl, le_refl _⟩

theorem ranksAbove_trans {r q p : String × Nat} (h1 : ranksAbove r q)
    (h2 : ranksAbove q p) : ranksAbove r p := by
  rcases h1 with h1 | ⟨h1a, h1b⟩
  · rcases h2 with h2 | ⟨h2a, h2b⟩
    · exact Or.inl (by omega)
    · exact Or.inl (by omega)
  · rcases h2 with h2 | ⟨h2a, h2b⟩
    · exact Or.inl (by omega)
    · exact Or.inr ⟨by omega, le_trans h1b h2b⟩

theorem pickBest_ranks_left (best q : String × Nat) :
    ranksAbove (pickBest best q) best := by
  unfold pickBest
  split
  · rename_i h
    rcases h with h | ⟨h1, h2⟩
    · exact Or.inl h
    · exact Or.inr ⟨h1.symm, le_of_lt h2⟩
  · exact ranksAbove_refl best

theorem pickBest_ranks_right (best q : String × Nat) :
    ranksAbove (pickBest best q) q := by
  unfold pickBest
  split
  · exact ranksAbove_refl q
  · rename_i h
    push_neg at h
    by_cases he : q.2 = best.2
    · exact Or.inr ⟨he.symm ▸ rfl, h.2 he⟩
    · exact Or.inl (by omega)

theorem foldl_pickBest_mem :
    ∀ (t : List (String × Nat)) (best : String × Nat),
      t.foldl pickBest best = best ∨ t.foldl pickBest best ∈ t := by
  intro t
  induction t with
  | nil => intro best; exact Or.inl rfl
  | cons q t ih =>
    intro best
    rw [List.foldl_cons]
    rcases ih (pickBest best q) with h | h
    · rw [h]
      unfold pickBest
      split
      · exact Or.inr (List.mem_cons_self _ _)
      · exact Or.inl rfl
    · exact Or.inr (List.mem_cons_of_mem _ h)

theorem foldl_pickBest_ranks :
    ∀ (t : List (String × Nat)) (best : String × Nat),
      ranksAbove (t.foldl pickBest best) best ∧
        ∀ p ∈ t, ranksAbove (t.foldl pickBest best) p := by
  intro t
  induction t with
  | nil => intro best; exact ⟨ranksAbove_refl best, by simp⟩
  | cons q t ih =>
    intro best
    rw [List.foldl_cons]
    obtain ⟨ihb, ihall⟩ := ih (pickBest best q)
    refine ⟨ranksAbove_trans ihb (pickBest_ranks_left best q), ?_⟩
    intro p hp
    rcases List.mem_cons.mp hp with rfl | hmem
    · exact ranksAbove_trans ihb (pickBest_ranks_right best p)
    · exact ihall p hmem

/-- Claim C9 (amended): for each highlight category, `_top_person`
selects a member of the map that ranks at least as high as every member
under the key (maximal value, then lexicographically least name); the
"No data" sentinel is emitted exactly when the map is empty, the selected
value is zero, or the selected participant is literally named "N/A" (the
last case is the amendment: the sentinel marker collides with a real
participant of that name). -/
theorem highlight_selection (counter : List (String × Nat)) :
    (counter ≠ [] →
      topPerson counter ∈ counter ∧
        ∀ p ∈ counter, ranksAbove (topPerson counter) p) ∧
    (buildHighlight counter = .noData ↔
      counter = [] ∨ (topPerson counter).1 = "N/A" ∨ (topPerson counter).2 = 0) := by
  constructor
  · intro hne
    cases counter with
    | nil => exact absurd rfl hne
    | cons p t =>
      obtain ⟨hb, hall⟩ := foldl_pickBest_ranks t p
      constructor
      · show t.foldl pickBest p ∈ p :: t
        rcases foldl_pickBest_mem t p with h | h
        · rw [h]; exact List.mem_cons_self _ _
        · exact List.mem_cons_of_mem _ h
      · intro q hq
        rcases List.mem_cons.mp hq with rfl | hmem
        · exact hb
        · exact hall q hmem
  · unfold buildHighlight
    dsimp only
    constructor
    · intro h
      split at h
      · rename_i hc
        rcases hc with h1 | h2
        · exact Or.inr (Or.inl h1)
        · exact Or.inr (Or.inr h2)
      · exact absurd h (by simp)
    · intro h
      rcases h with rfl | h | h
      · rfl
      · rw [if_pos (Or.inl h)]
      · rw [if_pos (Or.inr h)]

/-- Claim C9, counterexample to the claim as stated: a participant
literally named "N/A" with the maximum (non-zero) voice count yields the
"No data" sentinel, not a name/value highlight. -/
theorem highlight_na_name_counterexample :
    buildHighlight [("N/A", 5)] = .noData ∧
    topPerson [("N/A", 5)] = ("N/A", 5) ∧
    ([("N/A", 5)] ≠ ([] : List (String × Nat))) ∧ (5 : Nat) ≠ 0 := by
  refine ⟨rfl, rfl, by simp, by omega⟩

/-- Claim C9, witness for the amended theorem at a concrete map. -/
theorem highlight_selection_witness :
    topPerson [("Bob", 3), ("Alice", 7), ("Ann", 7)] ∈
        [("Bob", 3), ("Alice", 7), ("Ann", 7)] ∧
    (buildHighlight [("Bob", 3), ("Alice", 7), ("Ann", 7)] = .noData ↔
      [("Bob", 3), ("Alice", 7), ("Ann", 7)] = ([] : List (String × Nat)) ∨
        (topPerson [("Bob", 3), ("Alice", 7), ("Ann", 7)]).1 = "N/A" ∨
        (topPerson [("Bob", 3), ("Alice", 7), ("Ann", 7)]).2 = 0) := by
  have h := highlight_selection [("Bob", 3), ("Alice", 7), ("Ann", 7)]
  exact ⟨(h.1 (by simp)).1, h.2⟩

/-! ## Claim C2 -/

theorem dropWhile_head_not (p : Char → Bool) :
    ∀ (l : List Char) (c : Char) (r : List Char),
      l.dropWhile p = c :: r → p c = false := by
  intro l
  induction l with
  | nil => intro c r h; simp at h
  | cons a as ih =>
    intro c r h
    by_cases hp : p a
    · rw [List.dropWhile_cons_of_pos hp] at h
      exact ih c r h
    · rw [List.dropWhile_cons_of_neg hp] at h
      obtain ⟨rfl, _⟩ := List.cons.injEq .. ▸ h
      injection h with h1 _
      rw [← h1]
      exact Bool.of_not_eq_true hp

theorem pyStripL_ne_nil_of_mem (l : List Char) (c : Char) (hc : c ∈ l)
    (hns : isPySpace c = false) : pyStripL l ≠ [] := by
  intro hnil
  unfold pyStripL at hnil
  have h1 : (l.dropWhile isPySpace).reverse.dropWhile isPySpace = [] := by
    have := congrArg List.reverse hnil
    simpa using this
  have h2 : ∀ x ∈ (l.dropWhile isPySpace).reverse, isPySpace x := by
    rw [← List.dropWhile_eq_nil_iff]
    exact h1
  have h3 : c ∈ l.dropWhile isPySpace ∨ c ∈ l.takeWhile isPySpace := by
    rcases List.mem_append.mp (by rw [List.takeWhile_append_dropWhile]; exact hc :
        c ∈ l.takeWhile isPySpace ++ l.dropWhile isPySpace) with h | h
    · exact Or.inr h
    · exact Or.inl h
  rcases h3 with h | h
  · have := h2 c (List.mem_reverse.mpr h)
    rw [hns] at this
    exact Bool.noConfusion this
  · have := List.mem_takeWhile_imp h
    rw [hns] at this
    exact Bool.noConfusion this

theorem matchIos_strip_ne (l : List Char) (g : TsGroups) (h : matchIos l = some g) :
    pyStripL l ≠ [] := by
  unfold matchIos at h
  cases hd : l.dropWhile isPySpace with
  | nil => rw [hd] at h; exact Option.noConfusion h
  | cons c r =>
    rw [hd] at h
    have hcl : c ∈ l := by
      have : c ∈ l.dropWhile isPySpace := by rw [hd]; exact List.mem_cons_self _ _
      exact List.dropWhile_subset _ this
    have hcs : isPySpace c = false := dropWhile_head_not isPySpace l c r hd
    exact pyStripL_ne_nil_of_mem l c hcl hcs

theorem matchAndroid_strip_ne (l : List Char) (g : TsGroups)
    (h : matchAndroid l = some g) : pyStripL l ≠ [] := by
  unfold matchAndroid at h
  cases hd : l.dropWhile isPySpace with
  | nil =>
    rw [hd] at h
    simp [dateGroup, List.takeWhile, List.dropWhile] at h
  | cons c r =>
    rw [hd] at h
    have hcl : c ∈ l := by
      have : c ∈ l.dropWhile isPySpace := by rw [hd]; exact List.mem_cons_self _ _
      exact List.dropWhile_subset _ this
    have hcs : isPySpace c = false := dropWhile_head_not isPySpace l c r hd
    exact pyStripL_ne_nil_of_mem l c hcl hcs

theorem matchTimestampFn_strip_ne (l : List Char) (e : Option ExportFormat)
    (g : TsGroups) (f : ExportFormat) (h : matchTimestampFn l e = some (g, f)) :
    pyStripL l ≠ [] := by
  unfold matchTimestampFn at h
  cases hi : (if e = none ∨ e = some ExportFormat.ios then matchIos l else none) with
  | some g' =>
    split at hi
    · exact matchIos_strip_ne l g' hi
    · exact Option.noConfusion hi
  | none =>
    rw [hi] at h
    cases ha : (if e = none ∨ e = some ExportFormat.android then matchAndroid l
        else none) with
    | some g' =>
      split at ha
      · exact matchAndroid_strip_ne l g' ha
      · exact Option.noConfusion ha
    | none => rw [ha] at h; exact Option.noConfusion h

/-- Claim C2: a matched-prefix line whose parsed timestamp is strictly
earlier than the last committed timestamp never starts a new message:
with a pending message present, the whole step appends the full stripped
line content (timestamp text included) to the pending body joined with a
newline, and leaves every other component of the state unchanged. -/
theorem stale_timestamp_folded (st : ParseState) (raw : List Char) (g : TsGroups)
    (mf : ExportFormat) (ts lt : DateTime) (c : Pending)
    (hmatch : matchTimestampFn (normalizeLine (rstripNl raw)) st.exportFormat
      = some (g, mf))
    (hts : parse_timestamp g.dateStr g.timeStr = some ts)
    (hlast : st.lastTimestamp = some lt)
    (hstale : dtLt ts lt = true)
    (hcur : st.current = some c) :
    stepLine st raw = .ok { st with current := some { c with
      text := c.text ++ '\n' :: pyStripL (normalizeLine (rstripNl raw)) } } := by
  have hstart : shouldStartNew (some mf) ts st.exportFormat st.lastTimestamp = false := by
    simp [shouldStartNew, hlast, hstale]
  have hne : pyStripL (normalizeLine (rstripNl raw)) ≠ [] :=
    matchTimestampFn_strip_ne _ _ _ _ hmatch
  have hne2 : (pyStripL (normalizeLine (rstripNl raw))).isEmpty = false := by
    cases hl : pyStripL (normalizeLine (rstripNl raw)) with
    | nil => exact absurd hl hne
    | cons a t => rfl
  simp only [stepLine, hmatch, hts, hstart, Bool.false_eq_true, if_false]
  unfold continuationStep
  rw [hcur]
  dsimp only
  rw [hne2]
  rfl

/-- Claim C2, witness: a dialect-B line carrying an older timestamp is
folded verbatim into the pending body. -/
theorem stale_timestamp_folded_witness :
    stepLine
      { totals := [], texts := [], years := [],
        current := some ⟨"Viren".toList, "first".toList, ⟨2024, 5, 12, 9, 15, 0⟩,
          some .android⟩,
        exportFormat := some .android,
        lastTimestamp := some ⟨2024, 5, 12, 9, 15, 0⟩ }
      "11/05/2024, 09:00 - Quoted: stale".toList
    = .ok
      { totals := [], texts := [], years := [],
        current := some ⟨"Viren".toList,
          ("first".toList ++ '\n' :: "11/05/2024, 09:00 - Quoted: stale".toList),
          ⟨2024, 5, 12, 9, 15, 0⟩, some .android⟩,
        exportFormat := some .android,
        lastTimestamp := some ⟨2024, 5, 12, 9, 15, 0⟩ } := by
  have h := stale_timestamp_folded
    { totals := [], texts := [], years := [],
      current := some ⟨"Viren".toList, "first".toList, ⟨2024, 5, 12, 9, 15, 0⟩,
        some .android⟩,
      exportFormat := some .android,
      lastTimestamp := some ⟨2024, 5, 12, 9, 15, 0⟩ }
    "11/05/2024, 09:00 - Quoted: stale".toList
    ⟨"11/05/2024".toList, "09:00".toList, "Quoted: stale".toList⟩
    .android ⟨2024, 5, 11, 9, 0, 0⟩ ⟨2024, 5, 12, 9, 15, 0⟩
    ⟨"Viren".toList, "first".toList, ⟨2024, 5, 12, 9, 15, 0⟩, some .android⟩
    (by decide) (by decide) rfl (by decide) rfl
  rw [h]
  rfl

/-! ## Claim C4 -/

theorem continuationStep_id (st : ParseState) (n : List Char)
    (hcur : st.current = none) : continuationStep st n = st := by
  unfold continuationStep
  rw [hcur]

theorem continuationStep_exportFormat (st : ParseState) (n : List Char) :
    (continuationStep st n).exportFormat = st.exportFormat := by
  unfold continuationStep
  cases st.current with
  | none => rfl
  | some c =>
    dsimp only
    split <;> rfl

theorem finalizeMessage_exportFormat (c : Pending) (st : ParseState) :
    (finalizeMessage c st).exportFormat = st.exportFormat := rfl

theorem stepLine_error_shape (st : ParseState) (l : List Char) (e : ParseError)
    (h : stepLine st l = .error e) : ∃ j, e = .badTimestamp j := by
  simp only [stepLine] at h
  split at h
  · rename_i g mf hm
    split at h
    · exact ⟨_, (Except.error.injEq .. ▸ h).symm⟩
    · split at h
      · split at h
        · split at h
          · exact Except.noConfusion h
          · exact Except.noConfusion h
        · exact Except.noConfusion h
      · exact Except.noConfusion h
  · exact Except.noConfusion h

theorem stepLine_error_match (st : ParseState) (l : List Char) (e : ParseError)
    (h : stepLine st l = .error e) :
    matchTimestampFn (normalizeLine (rstripNl l)) st.exportFormat ≠ none := by
  intro hm
  simp only [stepLine, hm] at h
  exact Except.noConfusion h

theorem stepLine_export_mono (st : ParseState) (l : List Char) (st' : ParseState)
    (f : ExportFormat) (h : stepLine st l = .ok st')
    (hf : st.exportFormat = some f) : st'.exportFormat = some f := by
  simp only [stepLine] at h
  split at h
  · rename_i g mf hm
    split at h
    · exact Except.noConfusion h
    · rename_i ts hts
      split at h
      · split at h
        · split at h
          · obtain rfl := (Except.ok.injEq .. ▸ h).symm
            simp [finalizeMessage_exportFormat]
            split <;> simp [orOpt, hf, finalizeMessage_exportFormat]
          · obtain rfl := (Except.ok.injEq .. ▸ h).symm
            simp only []
            split <;> simp [orOpt, hf, finalizeMessage_exportFormat]
        · obtain rfl := (Except.ok.injEq .. ▸ h).symm
          simp only []
          split <;> simp [orOpt, hf, finalizeMessage_exportFormat]
      · obtain rfl := (Except.ok.injEq .. ▸ h).symm
        rw [continuationStep_exportFormat]
        exact hf
  · obtain rfl := (Except.ok.injEq .. ▸ h).symm
    rw [continuationStep_exportFormat]
    exact hf

theorem stepLine_from_unlocked (st : ParseState) (l : List Char) (st' : ParseState)
    (hec : st.exportFormat = none) (hcur : st.current = none)
    (hlast : st.lastTimestamp = none) (h : stepLine st l = .ok st') :
    (matchTimestampFn (normalizeLine (rstripNl l)) none = none ∧ st' = st) ∨
    (matchTimestampFn (normalizeLine (rstripNl l)) none ≠ none ∧
      ∃ f, st'.exportFormat = some f) := by
  rw [← hec]
  simp only [stepLine] at h
  split at h
  · rename_i g mf hm
    right
    refine ⟨by rw [hm]; simp, ?_⟩
    split at h
    · exact Except.noConfusion h
    · rename_i ts hts
      have hstart : shouldStartNew (some mf) ts st.exportFormat st.lastTimestamp
          = true := by
        rw [hlast, hec]
        rfl
      rw [hstart] at h
      simp only [reduceIte] at h
      rw [hcur] at h
      simp only [] at h
      split at h
      · split at h
        · obtain rfl := (Except.ok.injEq .. ▸ h).symm
          exact ⟨mf, by simp [orOpt, hec]⟩
        · obtain rfl := (Except.ok.injEq .. ▸ h).symm
          exact ⟨mf, by simp [orOpt, hec]⟩
      · obtain rfl := (Except.ok.injEq .. ▸ h).symm
        exact ⟨mf, by simp [orOpt, hec]⟩
  · rename_i hm
    left
    obtain rfl := (Except.ok.injEq .. ▸ h).symm
    exact ⟨hm, continuationStep_id st _ hcur⟩

theorem runFrom_nil (st : ParseState) : runFrom st [] = finishParse st := rfl

theorem runFrom_cons (st : ParseState) (l : List Char) (ls : List (List Char)) :
    runFrom st (l :: ls) = match stepLine st l with
      | .error e => .error e
      | .ok st' => runFrom st' ls := by
  cases h : stepLine st l <;> simp [runFrom, processLines, h]

theorem runFrom_locked_not_undetermined :
    ∀ (lines : List (List Char)) (st : ParseState) (f : ExportFormat),
      st.exportFormat = some f → runFrom st lines ≠ .error .undetermined := by
  intro lines
  induction lines with
  | nil =>
    intro st f hf h
    rw [runFrom_nil] at h
    unfold finishParse at h
    split at h
    · rename_i c hc
      dsimp only at h
      rw [finalizeMessage_exportFormat, hf] at h
      dsimp only at h
      exact Except.noConfusion h
    · dsimp only at h
      rw [hf] at h
      dsimp only at h
      exact Except.noConfusion h
  | cons l ls ih =>
    intro st f hf h
    rw [runFrom_cons] at h
    split at h
    · rename_i e hstep
      obtain ⟨j, rfl⟩ := stepLine_error_shape st l e hstep
      exact ParseError.noConfusion (Except.error.injEq .. ▸ h)
    · rename_i st' hstep
      exact ih st' f (stepLine_export_mono st l st' f hstep hf) h

theorem runFrom_undetermined_iff :
    ∀ (lines : List (List Char)) (st : ParseState),
      st.exportFormat = none → st.current = none → st.lastTimestamp = none →
      (runFrom st lines = .error .undetermined ↔
        ∀ l ∈ lines, matchTimestampFn (normalizeLine (rstripNl l)) none = none) := by
  intro lines
  induction lines with
  | nil =>
    intro st hec hcur hlast
    rw [runFrom_nil]
    unfold finishParse
    rw [hcur]
    dsimp only
    rw [hec]
    simp
  | cons l ls ih =>
    intro st hec hcur hlast
    rw [runFrom_cons]
    cases hstep : stepLine st l with
    | error e =>
      obtain ⟨j, rfl⟩ := stepLine_error_shape st l e hstep
      have hm := stepLine_error_match st l _ hstep
      rw [hec] at hm
      simp only []
      constructor
      · intro h
        exact absurd (Except.error.injEq .. ▸ h) (by intro hh; exact ParseError.noConfusion hh)
      · intro h
        exact absurd (h l (by simp)) hm
    | ok st' =>
      simp only []
      rcases stepLine_from_unlocked st l st' hec hcur hlast hstep with
        ⟨hm, rfl⟩ | ⟨hm, f, hf⟩
      · rw [ih _ hec hcur hlast]
        simp [hm]
      · constructor
        · intro h
          exact absurd h (runFrom_locked_not_undetermined ls st' f hf)
        · intro h
          exact absurd (h l (by simp)) hm

theorem parseChat_eq_runFrom (lines : List (List Char)) :
    parseChat lines = runFrom {} lines := rfl

/-- Claim C4 (amended): the run fails with the "undetermined export
format" error exactly when no line of the input matches either dialect's
prefix; when some line matches, that error is never raised (but the
format is locked only if the first matching line's timestamp also
parses — otherwise the run aborts with a timestamp error before
locking). -/
theorem undetermined_iff_no_match (lines : List (List Char)) :
    parseChat lines = .error .undetermined ↔
      ∀ l ∈ lines, matchTimestampFn (normalizeLine (rstripNl l)) none = none := by
  rw [parseChat_eq_runFrom]
  exact runFrom_undetermined_iff lines {} rfl rfl rfl

/-- Claim C4, counterexample to the claim as stated: on a transcript
whose only line matches the Android prefix but carries a three-digit
year, the run aborts with the timestamp error before any format is
locked, so "whenever at least one line matches, a format is locked"
fails (no conversation and no locked format is produced). -/
theorem undetermined_no_lock_counterexample :
    (matchTimestampFn (normalizeLine (rstripNl "12/05/202, 09:15 - A: hi".toList))
        none).isSome = true ∧
    parseChat ["12/05/202, 09:15 - A: hi".toList]
      = .error (.badTimestamp "12/05/202 09:15".toList) := by
  exact ⟨rfl, rfl⟩

/-! ## Claim C8 -/

theorem bumpAssoc_keys (w : String) :
    ∀ c : List (String × Nat),
      (bumpAssoc w (· + 1) 0 c).map Prod.fst
        = if (c.map Prod.fst).contains w then c.map Prod.fst
          else c.map Prod.fst ++ [w] := by
  intro c
  induction c with
  | nil => simp [bumpAssoc]
  | cons p t ih =>
    obtain ⟨k, v⟩ := p
    by_cases h : w = k
    · subst h
      simp [bumpAssoc, List.contains_cons]
    · simp only [bumpAssoc, if_neg h, List.map_cons, List.contains_cons, ih]
      have hbeq : (w == k) = false := beq_false_of_ne h
      rw [hbeq]
      simp only [Bool.false_or]
      split <;> simp

theorem foldl_bump_keys :
    ∀ (toks : List String) (c : List (String × Nat)),
      ((toks.foldl (fun c w => bumpAssoc w (· + 1) 0 c) c).map Prod.fst)
        = toks.foldl (fun acc w => if acc.contains w then acc else acc ++ [w])
            (c.map Prod.fst) := by
  intro toks
  induction toks with
  | nil => intro c; rfl
  | cons w toks ih =>
    intro c
    rw [List.foldl_cons, List.foldl_cons, ih, bumpAssoc_keys]

theorem buildCounter_eq_stream :
    ∀ (corpus : List String) (c : List (String × Nat)),
      corpus.foldl (fun c t => (tokenize t).foldl (fun c w => bumpAssoc w (· + 1) 0 c) c) c
        = ((corpus.map tokenize).join).foldl (fun c w => bumpAssoc w (· + 1) 0 c) c := by
  intro corpus
  induction corpus with
  | nil => intro c; rfl
  | cons t corpus ih =>
    intro c
    rw [List.foldl_cons, ih, List.map_cons]
    rw [show ((tokenize t :: List.map tokenize corpus).join)
        = tokenize t ++ (List.map tokenize corpus).join from rfl]
    rw [List.foldl_append]

theorem insertDesc_filter (x : String × Nat) (k : Nat) :
    ∀ l : List (String × Nat),
      (insertDesc x l).filter (fun p => p.2 == k)
        = if x.2 == k then x :: l.filter (fun p => p.2 == k)
          else l.filter (fun p => p.2 == k) := by
  intro l
  induction l with
  | nil =>
    cases hk : (x.2 == k) <;> simp [insertDesc, List.filter, hk]
  | cons y t ih =>
    rw [insertDesc]
    by_cases h : y.2 ≤ x.2
    · rw [if_pos h]
      cases hk : (x.2 == k) <;> simp [List.filter_cons, hk]
    · rw [if_neg h]
      cases hyk : (y.2 == k) with
      | false =>
        rw [List.filter_cons, List.filter_cons, hyk]
        simp only [Bool.false_eq_true, if_false]
        rw [ih]
      | true =>
        have hxk : (x.2 == k) = false := by
          have h1 : y.2 = k := eq_of_beq hyk
          exact beq_false_of_ne (by omega)
        rw [List.filter_cons, List.filter_cons, hyk, ih, hxk]
        simp

theorem sortDesc_filter (k : Nat) :
    ∀ l : List (String × Nat),
      (sortDesc l).filter (fun p => p.2 == k) = l.filter (fun p => p.2 == k) := by
  intro l
  induction l with
  | nil => rfl
  | cons x t ih =>
    show (insertDesc x (sortDesc t)).filter _ = _
    rw [insertDesc_filter, ih]
    rcases hx : (x.2 == k) with _ | _ <;> simp [List.filter_cons, hx]

theorem insertDesc_perm (x : String × Nat) :
    ∀ l : List (String × Nat), (insertDesc x l).Perm (x :: l) := by
  intro l
  induction l with
  | nil => exact List.Perm.refl _
  | cons y t ih =>
    rw [insertDesc]
    split
    · exact List.Perm.refl _
    · exact (ih.cons y).trans (List.Perm.swap x y t)

theorem sortDesc_perm : ∀ l : List (String × Nat), (sortDesc l).Perm l := by
  intro l
  induction l with
  | nil => exact List.Perm.refl _
  | cons x t ih =>
    exact (insertDesc_perm x (sortDesc t)).trans (ih.cons x)

theorem insertDesc_pairwise (x : String × Nat) :
    ∀ l : List (String × Nat), l.Pairwise (fun a b => b.2 ≤ a.2) →
      (insertDesc x l).Pairwise (fun a b => b.2 ≤ a.2) := by
  intro l
  induction l with
  | nil => intro _; simp [insertDesc]
  | cons y t ih =>
    intro hp
    rw [insertDesc]
    split
    · rename_i h
      refine List.Pairwise.cons ?_ hp
      intro b hb
      rcases List.mem_cons.mp hb with rfl | hbt
      · exact h
      · have := (List.pairwise_cons.mp hp).1 b hbt
        omega
    · rename_i h
      rw [List.pairwise_cons] at hp
      refine List.Pairwise.cons ?_ (ih hp.2)
      intro b hb
      have hmem := (insertDesc_perm x t).mem_iff.mp hb
      rcases List.mem_cons.mp hmem with rfl | hbt
      · omega
      · exact hp.1 b hbt

theorem sortDesc_pairwise :
    ∀ l : List (String × Nat), (sortDesc l).Pairwise (fun a b => b.2 ≤ a.2) := by
  intro l
  induction l with
  | nil => simp [sortDesc]
  | cons x t ih => exact insertDesc_pairwise x (sortDesc t) ih

/-- Claim C8: the counter's keys are the tokens of the corpus in order of
first occurrence; the selected top-`n` list is sorted by weakly
decreasing count; within any fixed count, the selection is a prefix of
the counter's own (first-occurrence) order, not alphabetical; and every
unselected entry's count is at most every selected entry's count. -/
theorem top_words_selection (corpus : List String) (n : Nat) :
    ((buildCounter corpus).map Prod.fst = firstOccur ((corpus.map tokenize).join)) ∧
    ((topWords n corpus).Pairwise (fun a b => b.2 ≤ a.2)) ∧
    (∀ k : Nat, ∃ r, (buildCounter corpus).filter (fun p => p.2 == k)
        = (topWords n corpus).filter (fun p => p.2 == k) ++ r) ∧
    (∀ p ∈ buildCounter corpus, p ∉ topWords n corpus →
      ∀ q ∈ topWords n corpus, p.2 ≤ q.2) := by
  refine ⟨?_, ?_, ?_, ?_⟩
  · rw [buildCounter, buildCounter_eq_stream, foldl_bump_keys]
    rfl
  · exact (sortDesc_pairwise (buildCounter corpus)).sublist
      (List.take_sublist n _)
  · intro k
    refine ⟨(List.drop n (sortDesc (buildCounter corpus))).filter (fun p => p.2 == k), ?_⟩
    rw [← sortDesc_filter k (buildCounter corpus)]
    conv_lhs => rw [← List.take_append_drop n (sortDesc (buildCounter corpus))]
    rw [List.filter_append]
    rfl
  · intro p hp hpn q hq
    have hsorted := sortDesc_pairwise (buildCounter corpus)
    have hmem : p ∈ sortDesc (buildCounter corpus) :=
      (sortDesc_perm (buildCounter corpus)).mem_iff.mpr hp
    rw [← List.take_append_drop n (sortDesc (buildCounter corpus))] at hmem hsorted
    rcases List.mem_append.mp hmem with h | h
    · exact absurd h hpn
    · rw [List.pairwise_append] at hsorted
      exact hsorted.2.2 q hq p h

/-- Claim C8, witness: the selection instance at a concrete corpus. -/
theorem top_words_selection_witness :
    ((buildCounter ["zzz yyy", "yyy xxx zzz www", "www vvv"]).map Prod.fst
      = firstOccur (((["zzz yyy", "yyy xxx zzz www", "www vvv"]).map tokenize).join)) ∧
    ((topWords 3 ["zzz yyy", "yyy xxx zzz www", "www vvv"]).Pairwise
      (fun a b => b.2 ≤ a.2)) := by
  have h := top_words_selection ["zzz yyy", "yyy xxx zzz www", "www vvv"] 3
  exact ⟨h.1, h.2.1⟩

/-! ## Claim C7 -/

theorem span_run (p : Char → Bool) :
    ∀ (a rest : List Char), (∀ c ∈ a, p c = true) →
      (∀ c, rest.head? = some c → p c = false) →
      (a ++ rest).takeWhile p = a ∧ (a ++ rest).dropWhile p = rest := by
  intro a
  induction a with
  | nil =>
    intro rest _ hr
    cases rest with
    | nil => simp
    | cons c t =>
      have := hr c rfl
      simp only [List.nil_append]
      rw [List.takeWhile_cons_of_neg (by simp [this]),
        List.dropWhile_cons_of_neg (by simp [this])]
      exact ⟨rfl, rfl⟩
  | cons x a ih =>
    intro rest ha hr
    have hx : p x = true := ha x (by simp)
    obtain ⟨h1, h2⟩ := ih rest (fun c hc => ha c (by simp [hc])) hr
    simp only [List.cons_append]
    rw [List.takeWhile_cons_of_pos (by simp [hx]),
      List.dropWhile_cons_of_pos (by simp [hx]), h1, h2]
    exact ⟨rfl, rfl⟩

theorem numField2_eval (two1 one1 : Nat → Bool) (a rest : List Char)
    (ha : ∀ c ∈ a, c.isDigit = true)
    (hr : ∀ c, rest.head? = some c → c.isDigit = false) :
    numField2 two1 one1 (a ++ rest)
      = if fieldOK two1 one1 a then some (natOfDigits a, rest) else none := by
  obtain ⟨h1, h2⟩ := span_run Char.isDigit a rest ha hr
  unfold numField2 fieldOK
  dsimp only
  rw [h1, h2]
  cases hb2 : (a.length == 2 && two1 (natOfDigits a)) <;>
    cases hb1 : (a.length == 1 && one1 (natOfDigits a)) <;> simp [hb2, hb1]

theorem yearField_eval (four : Bool) (a rest : List Char)
    (ha : ∀ c ∈ a, c.isDigit = true)
    (hr : ∀ c, rest.head? = some c → c.isDigit = false) :
    yearField four (a ++ rest)
      = if (if four then a.length == 4 else a.length == 2) then
          some (specYearVal a, rest)
        else none := by
  obtain ⟨h1, h2⟩ := span_run Char.isDigit a rest ha hr
  unfold yearField
  dsimp only
  rw [h1, h2]
  cases four with
  | true =>
    cases hb : (a.length == 4)
    · simp [hb]
    · have h4 : a.length = 4 := by simpa using hb
      simp [hb, specYearVal, h4]
  | false =>
    cases hb : (a.length == 2)
    · simp [hb]
    · have h2' : a.length = 2 := by simpa using hb
      simp [hb, specYearVal, h2']

theorem litChar_cons (c : Char) (rest : List Char) : litChar c (c :: rest) = some rest := by
  simp [litChar]

theorem wsChunk_space (rest : List Char)
    (hr : ∀ c, rest.head? = some c → isPySpace c = false) :
    wsChunk (' ' :: rest) = some rest := by
  obtain ⟨h1, h2⟩ := span_run isPySpace [' '] rest (by decide) hr
  unfold wsChunk
  dsimp only
  rw [show (' ' :: rest) = [' '] ++ rest from rfl, h1, h2]
  rfl

theorem digit_not_space (c : Char) (h : c.isDigit = true) : isPySpace c = false := by
  have hb : 48 ≤ c.toNat ∧ c.toNat ≤ 57 := by
    unfold Char.isDigit at h
    simp only [Bool.and_eq_true, decide_eq_true_eq] at h
    exact ⟨h.1, h.2⟩
  unfold isPySpace
  simp only [Bool.or_eq_false_iff, beq_eq_false_iff_ne, ne_eq]
  refine ⟨⟨⟨⟨⟨?_, ?_⟩, ?_⟩, ?_⟩, ?_⟩, ?_⟩ <;> intro hc <;> rw [hc] at hb <;>
    exact absurd hb (by decide)

theorem mkDatetime_isSome (y m d h mi s : Nat) :
    (mkDatetime y m d h mi s).isSome = true ↔
      (1 ≤ y ∧ y ≤ 9999 ∧ 1 ≤ m ∧ m ≤ 12 ∧ 1 ≤ d ∧ d ≤ daysInMonth y m
        ∧ h ≤ 23 ∧ mi ≤ 59 ∧ s ≤ 59) := by
  unfold mkDatetime
  split <;> simp_all

theorem daysInMonth_le_31 (y m : Nat) : daysInMonth y m ≤ 31 := by
  unfold daysInMonth
  split
  · split <;> omega
  · split <;> omega

theorem natOfDigits_aux_lt :
    ∀ (l : List Char) (n : Nat), (∀ c ∈ l, c.isDigit = true) →
      l.foldl (fun n c => n * 10 + (c.toNat - 48)) n < (n + 1) * 10 ^ l.length := by
  intro l
  induction l with
  | nil => intro n _; simpa using Nat.lt_succ_self n
  | cons c t ih =>
    intro n h
    have hc : c.isDigit = true := h c (by simp)
    have hc9 : c.toNat - 48 ≤ 9 := by
      have hb : 48 ≤ c.toNat ∧ c.toNat ≤ 57 := by
        unfold Char.isDigit at hc
        simp only [Bool.and_eq_true, decide_eq_true_eq] at hc
        exact ⟨hc.1, hc.2⟩
      omega
    have := ih (n * 10 + (c.toNat - 48)) (fun x hx => h x (by simp [hx]))
    calc (c :: t).foldl (fun n c => n * 10 + (c.toNat - 48)) n
        = t.foldl (fun n c => n * 10 + (c.toNat - 48)) (n * 10 + (c.toNat - 48)) := rfl
      _ < (n * 10 + (c.toNat - 48) + 1) * 10 ^ t.length := this
      _ ≤ ((n + 1) * 10) * 10 ^ t.length := by
          have : n * 10 + (c.toNat - 48) + 1 ≤ (n + 1) * 10 := by omega
          exact Nat.mul_le_mul_right _ this
      _ = (n + 1) * 10 ^ (c :: t).length := by
          rw [List.length_cons, pow_succ]
          ring

theorem natOfDigits_lt (l : List Char) (h : ∀ c ∈ l, c.isDigit = true) :
    natOfDigits l < 10 ^ l.length := by
  have := natOfDigits_aux_lt l 0 h
  simpa [natOfDigits] using this

theorem head_cons_prop (P : Char → Prop) (x : Char) (hx : P x) (t : List Char) :
    ∀ c, ((x :: t).head? = some c) → P c := by
  intro c hc
  simp only [List.head?_cons, Option.some.injEq] at hc
  rw [← hc]
  exact hx

theorem head_append_not_space (h : List Char) (hh : ∀ c ∈ h, c.isDigit = true)
    (x : Char) (hx : isPySpace x = false) (t : List Char) :
    ∀ c, ((h ++ x :: t).head? = some c) → isPySpace c = false := by
  cases h with
  | nil => exact head_cons_prop (fun c => isPySpace c = false) x hx t
  | cons a h' =>
    intro c hc
    simp only [List.cons_append, List.head?_cons, Option.some.injEq] at hc
    rw [← hc]
    exact digit_not_space a (hh a (by simp))

theorem strptime_eval_tt (four : Bool) (d m y h mi s : List Char)
    (hd : ∀ c ∈ d, c.isDigit = true) (hm : ∀ c ∈ m, c.isDigit = true)
    (hy : ∀ c ∈ y, c.isDigit = true) (hh : ∀ c ∈ h, c.isDigit = true)
    (hmi : ∀ c ∈ mi, c.isDigit = true) (hs : ∀ c ∈ s, c.isDigit = true) :
    strptimeDMY four true
        (d ++ ('/' :: (m ++ ('/' :: (y ++ (' ' :: (h ++ (':' :: (mi ++ (':' :: s))))))))))
      = if fieldOK (fun v => decide (1 ≤ v ∧ v ≤ 31)) (fun v => decide (1 ≤ v)) d
          && fieldOK (fun v => decide (1 ≤ v ∧ v ≤ 12)) (fun v => decide (1 ≤ v)) m
          && (if four then y.length == 4 else y.length == 2)
          && fieldOK (fun v => decide (v ≤ 23)) (fun _ => true) h
          && fieldOK (fun v => decide (v ≤ 59)) (fun _ => true) mi
          && fieldOK (fun v => decide (v ≤ 61)) (fun _ => true) s then
          mkDatetime (specYearVal y) (natOfDigits m) (natOfDigits d)
            (natOfDigits h) (natOfDigits mi) (natOfDigits s)
        else none := by
  have e1 := numField2_eval (fun v => decide (1 ≤ v ∧ v ≤ 31)) (fun v => decide (1 ≤ v))
    d ('/' :: (m ++ ('/' :: (y ++ (' ' :: (h ++ (':' :: (mi ++ (':' :: s))))))))) hd
    (head_cons_prop (fun c => c.isDigit = false) '/' rfl _)
  have e2 := numField2_eval (fun v => decide (1 ≤ v ∧ v ≤ 12)) (fun v => decide (1 ≤ v))
    m ('/' :: (y ++ (' ' :: (h ++ (':' :: (mi ++ (':' :: s))))))) hm
    (head_cons_prop (fun c => c.isDigit = false) '/' rfl _)
  have e3 := yearField_eval four y (' ' :: (h ++ (':' :: (mi ++ (':' :: s))))) hy
    (head_cons_prop (fun c => c.isDigit = false) ' ' rfl _)
  have e4 := wsChunk_space (h ++ (':' :: (mi ++ (':' :: s))))
    (head_append_not_space h hh ':' rfl _)
  have e5 := numField2_eval (fun v => decide (v ≤ 23)) (fun _ => true)
    h (':' :: (mi ++ (':' :: s))) hh
    (head_cons_prop (fun c => c.isDigit = false) ':' rfl _)
  have e6 := numField2_eval (fun v => decide (v ≤ 59)) (fun _ => true)
    mi (':' :: s) hmi
    (head_cons_prop (fun c => c.isDigit = false) ':' rfl _)
  have e7 := numField2_eval (fun v => decide (v ≤ 61)) (fun _ => true)
    s [] hs (by intro c hc; simp at hc)
  rw [List.append_nil] at e7
  unfold strptimeDMY
  rw [e1]
  by_cases hD : fieldOK (fun v => decide (1 ≤ v ∧ v ≤ 31)) (fun v => decide (1 ≤ v)) d
      = true
  case neg =>
    rw [if_neg hD,
      if_neg (by simp only [Bool.and_eq_true]; intro hand; exact hD hand.1.1.1.1.1)]
  case pos =>
  rw [if_pos hD]
  dsimp only
  rw [litChar_cons]
  dsimp only
  rw [e2]
  by_cases hM : fieldOK (fun v => decide (1 ≤ v ∧ v ≤ 12)) (fun v => decide (1 ≤ v)) m
      = true
  case neg =>
    rw [if_neg hM,
      if_neg (by simp only [Bool.and_eq_true]; intro hand; exact hM hand.1.1.1.1.2)]
  case pos =>
  rw [if_pos hM]
  dsimp only
  rw [litChar_cons]
  dsimp only
  rw [e3]
  by_cases hY : (if four then y.length == 4 else y.length == 2) = true
  case neg =>
    rw [if_neg hY]
    rw [if_neg (by simp only [Bool.and_eq_true]; intro hand; exact hY hand.1.1.1.2)]
  case pos =>
  rw [if_pos hY]
  dsimp only
  rw [e4]
  dsimp only
  rw [e5]
  by_cases hH : fieldOK (fun v => decide (v ≤ 23)) (fun _ => true) h = true
  case neg =>
    rw [if_neg hH,
      if_neg (by simp only [Bool.and_eq_true]; intro hand; exact hH hand.1.1.2)]
  case pos =>
  rw [if_pos hH]
  dsimp only
  rw [litChar_cons]
  dsimp only
  rw [e6]
  by_cases hMi : fieldOK (fun v => decide (v ≤ 59)) (fun _ => true) mi = true
  case neg =>
    rw [if_neg hMi,
      if_neg (by simp only [Bool.and_eq_true]; intro hand; exact hMi hand.1.2)]
  case pos =>
  rw [if_pos hMi]
  dsimp only
  rw [litChar_cons]
  dsimp only
  rw [e7]
  rw [if_pos rfl]
  by_cases hS : fieldOK (fun v => decide (v ≤ 61)) (fun _ => true) s = true
  case neg =>
    rw [if_neg hS]
    dsimp only
    rw [if_neg (by simp only [Bool.and_eq_true]; intro hand; exact hS hand.2)]
  case pos =>
  rw [if_pos hS]
  dsimp only
  rw [hD, hM, hY, hH, hMi, hS]
  rfl

/-- A pattern without `:%S` rejects a seconds-bearing input: the minutes
field leaves `':' :: s` unconsumed and `strptime` requires the whole
string to be matched. -/
theorem strptime_eval_extra_secs (four : Bool) (d m y h mi s : List Char)
    (hd : ∀ c ∈ d, c.isDigit = true) (hm : ∀ c ∈ m, c.isDigit = true)
    (hy : ∀ c ∈ y, c.isDigit = true) (hh : ∀ c ∈ h, c.isDigit = true)
    (hmi : ∀ c ∈ mi, c.isDigit = true) (hs : ∀ c ∈ s, c.isDigit = true) :
    strptimeDMY four false
        (d ++ ('/' :: (m ++ ('/' :: (y ++ (' ' :: (h ++ (':' :: (mi ++ (':' :: s))))))))))
      = none := by
  have e1 := numField2_eval (fun v => decide (1 ≤ v ∧ v ≤ 31)) (fun v => decide (1 ≤ v))
    d ('/' :: (m ++ ('/' :: (y ++ (' ' :: (h ++ (':' :: (mi ++ (':' :: s))))))))) hd
    (head_cons_prop (fun c => c.isDigit = false) '/' rfl _)
  have e2 := numField2_eval (fun v => decide (1 ≤ v ∧ v ≤ 12)) (fun v => decide (1 ≤ v))
    m ('/' :: (y ++ (' ' :: (h ++ (':' :: (mi ++ (':' :: s))))))) hm
    (head_cons_prop (fun c => c.isDigit = false) '/' rfl _)
  have e3 := yearField_eval four y (' ' :: (h ++ (':' :: (mi ++ (':' :: s))))) hy
    (head_cons_prop (fun c => c.isDigit = false) ' ' rfl _)
  have e4 := wsChunk_space (h ++ (':' :: (mi ++ (':' :: s))))
    (head_append_not_space h hh ':' rfl _)
  have e5 := numField2_eval (fun v => decide (v ≤ 23)) (fun _ => true)
    h (':' :: (mi ++ (':' :: s))) hh
    (head_cons_prop (fun c => c.isDigit = false) ':' rfl _)
  have e6 := numField2_eval (fun v => decide (v ≤ 59)) (fun _ => true)
    mi (':' :: s) hmi
    (head_cons_prop (fun c => c.isDigit = false) ':' rfl _)
  unfold strptimeDMY
  rw [e1]
  by_cases hD : fieldOK (fun v => decide (1 ≤ v ∧ v ≤ 31)) (fun v => decide (1 ≤ v)) d
      = true
  case neg => rw [if_neg hD]
  case pos =>
  rw [if_pos hD]
  dsimp only
  rw [litChar_cons]
  dsimp only
  rw [e2]
  by_cases hM : fieldOK (fun v => decide (1 ≤ v ∧ v ≤ 12)) (fun v => decide (1 ≤ v)) m
      = true
  case neg => rw [if_neg hM]
  case pos =>
  rw [if_pos hM]
  dsimp only
  rw [litChar_cons]
  dsimp only
  rw [e3]
  by_cases hY : (if four then y.length == 4 else y.length == 2) = true
  case neg => rw [if_neg hY]
  case pos =>
  rw [if_pos hY]
  dsimp only
  rw [e4]
  dsimp only
  rw [e5]
  by_cases hH : fieldOK (fun v => decide (v ≤ 23)) (fun _ => true) h = true
  case neg => rw [if_neg hH]
  case pos =>
  rw [if_pos hH]
  dsimp only
  rw [litChar_cons]
  dsimp only
  rw [e6]
  by_cases hMi : fieldOK (fun v => decide (v ≤ 59)) (fun _ => true) mi = true
  case neg => rw [if_neg hMi]
  case pos =>
  rw [if_pos hMi]
  rfl

/-- A pattern with `:%S` rejects an input without a seconds field: after
the minutes the input is exhausted and the `':'` literal fails. -/
theorem strptime_eval_secs_missing (four : Bool) (d m y h mi : List Char)
    (hd : ∀ c ∈ d, c.isDigit = true) (hm : ∀ c ∈ m, c.isDigit = true)
    (hy : ∀ c ∈ y, c.isDigit = true) (hh : ∀ c ∈ h, c.isDigit = true)
    (hmi : ∀ c ∈ mi, c.isDigit = true) :
    strptimeDMY four true
        (d ++ ('/' :: (m ++ ('/' :: (y ++ (' ' :: (h ++ (':' :: mi))))))))
      = none := by
  have e1 := numField2_eval (fun v => decide (1 ≤ v ∧ v ≤ 31)) (fun v => decide (1 ≤ v))
    d ('/' :: (m ++ ('/' :: (y ++ (' ' :: (h ++ (':' :: mi))))))) hd
    (head_cons_prop (fun c => c.isDigit = false) '/' rfl _)
  have e2 := numField2_eval (fun v => decide (1 ≤ v ∧ v ≤ 12)) (fun v => decide (1 ≤ v))
    m ('/' :: (y ++ (' ' :: (h ++ (':' :: mi))))) hm
    (head_cons_prop (fun c => c.isDigit = false) '/' rfl _)
  have e3 := yearField_eval four y (' ' :: (h ++ (':' :: mi))) hy
    (head_cons_prop (fun c => c.isDigit = false) ' ' rfl _)
  have e4 := wsChunk_space (h ++ (':' :: mi))
    (head_append_not_space h hh ':' rfl _)
  have e5 := numField2_eval (fun v => decide (v ≤ 23)) (fun _ => true)
    h (':' :: mi) hh
    (head_cons_prop (fun c => c.isDigit = false) ':' rfl _)
  have e6 := numField2_eval (fun v => decide (v ≤ 59)) (fun _ => true)
    mi [] hmi (by intro c hc; simp at hc)
  rw [List.append_nil] at e6
  unfold strptimeDMY
  rw [e1]
  by_cases hD : fieldOK (fun v => decide (1 ≤ v ∧ v ≤ 31)) (fun v => decide (1 ≤ v)) d
      = true
  case neg => rw [if_neg hD]
  case pos =>
  rw [if_pos hD]
  dsimp only
  rw [litChar_cons]
  dsimp only
  rw [e2]
  by_cases hM : fieldOK (fun v => decide (1 ≤ v ∧ v ≤ 12)) (fun v => decide (1 ≤ v)) m
      = true
  case neg => rw [if_neg hM]
  case pos =>
  rw [if_pos hM]
  dsimp only
  rw [litChar_cons]
  dsimp only
  rw [e3]
  by_cases hY : (if four then y.length == 4 else y.length == 2) = true
  case neg => rw [if_neg hY]
  case pos =>
  rw [if_pos hY]
  dsimp only
  rw [e4]
  dsimp only
  rw [e5]
  by_cases hH : fieldOK (fun v => decide (v ≤ 23)) (fun _ => true) h = true
  case neg => rw [if_neg hH]
  case pos =>
  rw [if_pos hH]
  dsimp only
  rw [litChar_cons]
  dsimp only
  rw [e6]
  by_cases hMi : fieldOK (fun v => decide (v ≤ 59)) (fun _ => true) mi = true
  case neg => rw [if_neg hMi]
  case pos =>
  rw [if_pos hMi]
  rfl

/-- Full evaluation of a no-seconds pattern on a matching input shape:
each field's acceptance condition, then the `datetime` constructor with
second 0. -/
theorem strptime_eval_ff (four : Bool) (d m y h mi : List Char)
    (hd : ∀ c ∈ d, c.isDigit = true) (hm : ∀ c ∈ m, c.isDigit = true)
    (hy : ∀ c ∈ y, c.isDigit = true) (hh : ∀ c ∈ h, c.isDigit = true)
    (hmi : ∀ c ∈ mi, c.isDigit = true) :
    strptimeDMY four false
        (d ++ ('/' :: (m ++ ('/' :: (y ++ (' ' :: (h ++ (':' :: mi))))))))
      = if fieldOK (fun v => decide (1 ≤ v ∧ v ≤ 31)) (fun v => decide (1 ≤ v)) d
          && fieldOK (fun v => decide (1 ≤ v ∧ v ≤ 12)) (fun v => decide (1 ≤ v)) m
          && (if four then y.length == 4 else y.length == 2)
          && fieldOK (fun v => decide (v ≤ 23)) (fun _ => true) h
          && fieldOK (fun v => decide (v ≤ 59)) (fun _ => true) mi then
          mkDatetime (specYearVal y) (natOfDigits m) (natOfDigits d)
            (natOfDigits h) (natOfDigits mi) 0
        else none := by
  have e1 := numField2_eval (fun v => decide (1 ≤ v ∧ v ≤ 31)) (fun v => decide (1 ≤ v))
    d ('/' :: (m ++ ('/' :: (y ++ (' ' :: (h ++ (':' :: mi))))))) hd
    (head_cons_prop (fun c => c.isDigit = false) '/' rfl _)
  have e2 := numField2_eval (fun v => decide (1 ≤ v ∧ v ≤ 12)) (fun v => decide (1 ≤ v))
    m ('/' :: (y ++ (' ' :: (h ++ (':' :: mi))))) hm
    (head_cons_prop (fun c => c.isDigit = false) '/' rfl _)
  have e3 := yearField_eval four y (' ' :: (h ++ (':' :: mi))) hy
    (head_cons_prop (fun c => c.isDigit = false) ' ' rfl _)
  have e4 := wsChunk_space (h ++ (':' :: mi))
    (head_append_not_space h hh ':' rfl _)
  have e5 := numField2_eval (fun v => decide (v ≤ 23)) (fun _ => true)
    h (':' :: mi) hh
    (head_cons_prop (fun c => c.isDigit = false) ':' rfl _)
  have e6 := numField2_eval (fun v => decide (v ≤ 59)) (fun _ => true)
    mi [] hmi (by intro c hc; simp at hc)
  rw [List.append_nil] at e6
  unfold strptimeDMY
  rw [e1]
  by_cases hD : fieldOK (fun v => decide (1 ≤ v ∧ v ≤ 31)) (fun v => decide (1 ≤ v)) d
      = true
  case neg =>
    rw [if_neg hD,
      if_neg (by simp only [Bool.and_eq_true]; intro hand; exact hD hand.1.1.1.1)]
  case pos =>
  rw [if_pos hD]
  dsimp only
  rw [litChar_cons]
  dsimp only
  rw [e2]
  by_cases hM : fieldOK (fun v => decide (1 ≤ v ∧ v ≤ 12)) (fun v => decide (1 ≤ v)) m
      = true
  case neg =>
    rw [if_neg hM,
      if_neg (by simp only [Bool.and_eq_true]; intro hand; exact hM hand.1.1.1.2)]
  case pos =>
  rw [if_pos hM]
  dsimp only
  rw [litChar_cons]
  dsimp only
  rw [e3]
  by_cases hY : (if four then y.length == 4 else y.length == 2) = true
  case neg =>
    rw [if_neg hY]
    rw [if_neg (by simp only [Bool.and_eq_true]; intro hand; exact hY hand.1.1.2)]
  case pos =>
  rw [if_pos hY]
  dsimp only
  rw [e4]
  dsimp only
  rw [e5]
  by_cases hH : fieldOK (fun v => decide (v ≤ 23)) (fun _ => true) h = true
  case neg =>
    rw [if_neg hH,
      if_neg (by simp only [Bool.and_eq_true]; intro hand; exact hH hand.1.2)]
  case pos =>
  rw [if_pos hH]
  dsimp only
  rw [litChar_cons]
  dsimp only
  rw [e6]
  by_cases hMi : fieldOK (fun v => decide (v ≤ 59)) (fun _ => true) mi = true
  case neg =>
    rw [if_neg hMi,
      if_neg (by simp only [Bool.and_eq_true]; intro hand; exact hMi hand.2)]
  case pos =>
  rw [if_pos hMi]
  dsimp only
  rw [hD, hM, hY, hH, hMi]
  rfl

theorem isSome_orElse {α : Type} (o : Option α) (f : Unit → Option α) :
    (o.orElse f).isSome = (o.isSome || (f ()).isSome) := by
  cases o <;> rfl

theorem isSome_ite_none {α : Type} (c : Bool) (o : Option α) :
    (if c = true then o else none).isSome = (c && o.isSome) := by
  cases c <;> simp

theorem fieldOK_iff (two1 one1 : Nat → Bool) (a : List Char) :
    fieldOK two1 one1 a = true ↔
      (a.length = 2 ∧ two1 (natOfDigits a) = true)
        ∨ (a.length = 1 ∧ one1 (natOfDigits a) = true) := by
  unfold fieldOK
  simp [Bool.or_eq_true, Bool.and_eq_true]

theorem specYearVal_le (y : List Char) (hy : ∀ c ∈ y, c.isDigit = true)
    (hl : y.length = 2 ∨ y.length = 4) : specYearVal y ≤ 9999 := by
  have hlt := natOfDigits_lt y hy
  unfold specYearVal
  rcases hl with h2 | h4
  · rw [if_pos h2]
    rw [h2] at hlt
    norm_num at hlt
    split <;> omega
  · rw [if_neg (by omega)]
    rw [h4] at hlt
    norm_num at hlt
    omega

/-- `parse_timestamp` on a seconds-bearing matched shape accepts exactly
when the specification does: the two seconds patterns are tried for the
four- and the two-digit year, the no-seconds patterns always fail. -/

theorem parse_timestamp_secs_eval (d m y h mi s : List Char)
    (hd : ∀ c ∈ d, c.isDigit = true) (hm : ∀ c ∈ m, c.isDigit = true)
    (hy : ∀ c ∈ y, c.isDigit = true) (hh : ∀ c ∈ h, c.isDigit = true)
    (hmi : ∀ c ∈ mi, c.isDigit = true) (hs : ∀ c ∈ s, c.isDigit = true)
    (hdl : d.length = 1 ∨ d.length = 2) (hml : m.length = 1 ∨ m.length = 2)
    (hhl : h.length = 1 ∨ h.length = 2) (hmil : mi.length = 1 ∨ mi.length = 2)
    (hsl : s.length = 1 ∨ s.length = 2) :
    (parse_timestamp (d ++ ('/' :: (m ++ ('/' :: y))))
        (h ++ (':' :: (mi ++ (':' :: s))))).isSome = true
      ↔ specTimestampAccepts d m y h mi (some s) := by
  have hj : (d ++ ('/' :: (m ++ ('/' :: y)))) ++ ' ' :: (h ++ (':' :: (mi ++ (':' :: s))))
      = d ++ ('/' :: (m ++ ('/' :: (y ++ (' ' :: (h ++ (':' :: (mi ++ (':' :: s))))))))) := by
    simp [List.append_assoc]
  unfold parse_timestamp
  dsimp only
  rw [hj]
  rw [strptime_eval_tt true d m y h mi s hd hm hy hh hmi hs,
    strptime_eval_extra_secs true d m y h mi s hd hm hy hh hmi hs,
    strptime_eval_tt false d m y h mi s hd hm hy hh hmi hs,
    strptime_eval_extra_secs false d m y h mi s hd hm hy hh hmi hs]
  simp only [isSome_orElse, isSome_ite_none, Option.isSome_none, Bool.or_false,
    Bool.false_or]
  simp only [if_true, Bool.false_eq_true, if_false, Bool.or_eq_true, Bool.and_eq_true,
    fieldOK_iff, mkDatetime_isSome, beq_iff_eq, decide_eq_true_eq]
  unfold specTimestampAccepts
  dsimp only
  constructor
  . rintro (⟨⟨⟨⟨⟨⟨_, _⟩, h4⟩, _⟩, _⟩, _⟩, rest⟩ | ⟨⟨⟨⟨⟨⟨_, _⟩, h2⟩, _⟩, _⟩, _⟩, rest⟩)
    . exact ⟨Or.inr h4, rest.1, rest.2.2⟩
    . exact ⟨Or.inl h2, rest.1, rest.2.2⟩
  . rintro ⟨hyl, h1Y, h1M, hM12, h1D, hDd, hH23, hMi59, hS59⟩
    have hD31 : natOfDigits d ≤ 31 := le_trans hDd (daysInMonth_le_31 _ _)
    have hYle : specYearVal y ≤ 9999 := specYearVal_le y hy hyl
    have fd : d.length = 2 ∧ 1 ≤ natOfDigits d ∧ natOfDigits d ≤ 31
        ∨ d.length = 1 ∧ 1 ≤ natOfDigits d := by
      rcases hdl with hq | hq
      . exact Or.inr ⟨hq, h1D⟩
      . exact Or.inl ⟨hq, h1D, hD31⟩
    have fm : m.length = 2 ∧ 1 ≤ natOfDigits m ∧ natOfDigits m ≤ 12
        ∨ m.length = 1 ∧ 1 ≤ natOfDigits m := by
      rcases hml with hq | hq
      . exact Or.inr ⟨hq, h1M⟩
      . exact Or.inl ⟨hq, h1M, hM12⟩
    have fh : h.length = 2 ∧ natOfDigits h ≤ 23 ∨ h.length = 1 ∧ True := by
      rcases hhl with hq | hq
      . exact Or.inr ⟨hq, trivial⟩
      . exact Or.inl ⟨hq, hH23⟩
    have fmi : mi.length = 2 ∧ natOfDigits mi ≤ 59 ∨ mi.length = 1 ∧ True := by
      rcases hmil with hq | hq
      . exact Or.inr ⟨hq, trivial⟩
      . exact Or.inl ⟨hq, hMi59⟩
    have fs : s.length = 2 ∧ natOfDigits s ≤ 61 ∨ s.length = 1 ∧ True := by
      rcases hsl with hq | hq
      . exact Or.inr ⟨hq, trivial⟩
      . exact Or.inl ⟨hq, by omega⟩
    rcases hyl with h2 | h4
    . exact Or.inr ⟨⟨⟨⟨⟨⟨fd, fm⟩, h2⟩, fh⟩, fmi⟩, fs⟩,
        h1Y, hYle, h1M, hM12, h1D, hDd, hH23, hMi59, hS59⟩
    . exact Or.inl ⟨⟨⟨⟨⟨⟨fd, fm⟩, h4⟩, fh⟩, fmi⟩, fs⟩,
        h1Y, hYle, h1M, hM12, h1D, hDd, hH23, hMi59, hS59⟩

/-- `parse_timestamp` on a matched shape without seconds accepts exactly
when the specification does: the two no-seconds patterns are tried for
the four- and the two-digit year, the seconds patterns always fail. -/

theorem parse_timestamp_nosecs_eval (d m y h mi : List Char)
    (hd : ∀ c ∈ d, c.isDigit = true) (hm : ∀ c ∈ m, c.isDigit = true)
    (hy : ∀ c ∈ y, c.isDigit = true) (hh : ∀ c ∈ h, c.isDigit = true)
    (hmi : ∀ c ∈ mi, c.isDigit = true)
    (hdl : d.length = 1 ∨ d.length = 2) (hml : m.length = 1 ∨ m.length = 2)
    (hhl : h.length = 1 ∨ h.length = 2) (hmil : mi.length = 1 ∨ mi.length = 2) :
    (parse_timestamp (d ++ ('/' :: (m ++ ('/' :: y))))
        (h ++ (':' :: mi))).isSome = true
      ↔ specTimestampAccepts d m y h mi none := by
  have hj : (d ++ ('/' :: (m ++ ('/' :: y)))) ++ ' ' :: (h ++ (':' :: mi))
      = d ++ ('/' :: (m ++ ('/' :: (y ++ (' ' :: (h ++ (':' :: mi))))))) := by
    simp [List.append_assoc]
  unfold parse_timestamp
  dsimp only
  rw [hj]
  rw [strptime_eval_secs_missing true d m y h mi hd hm hy hh hmi,
    strptime_eval_ff true d m y h mi hd hm hy hh hmi,
    strptime_eval_secs_missing false d m y h mi hd hm hy hh hmi,
    strptime_eval_ff false d m y h mi hd hm hy hh hmi]
  simp only [isSome_orElse, isSome_ite_none, Option.isSome_none, Bool.or_false,
    Bool.false_or]
  simp only [if_true, Bool.false_eq_true, if_false, Bool.or_eq_true, Bool.and_eq_true,
    fieldOK_iff, mkDatetime_isSome, beq_iff_eq, decide_eq_true_eq]
  unfold specTimestampAccepts
  dsimp only
  constructor
  . rintro (⟨⟨⟨⟨⟨_, _⟩, h4⟩, _⟩, _⟩, rest⟩ | ⟨⟨⟨⟨⟨_, _⟩, h2⟩, _⟩, _⟩, rest⟩)
    . exact ⟨Or.inr h4, rest.1, rest.2.2.1, rest.2.2.2.1, rest.2.2.2.2.1,
        rest.2.2.2.2.2.1, rest.2.2.2.2.2.2.1, rest.2.2.2.2.2.2.2.1, trivial⟩
    . exact ⟨Or.inl h2, rest.1, rest.2.2.1, rest.2.2.2.1, rest.2.2.2.2.1,
        rest.2.2.2.2.2.1, rest.2.2.2.2.2.2.1, rest.2.2.2.2.2.2.2.1, trivial⟩
  . rintro ⟨hyl, h1Y, h1M, hM12, h1D, hDd, hH23, hMi59, -⟩
    have hD31 : natOfDigits d ≤ 31 := le_trans hDd (daysInMonth_le_31 _ _)
    have hYle : specYearVal y ≤ 9999 := specYearVal_le y hy hyl
    have fd : d.length = 2 ∧ 1 ≤ natOfDigits d ∧ natOfDigits d ≤ 31
        ∨ d.length = 1 ∧ 1 ≤ natOfDigits d := by
      rcases hdl with hq | hq
      . exact Or.inr ⟨hq, h1D⟩
      . exact Or.inl ⟨hq, h1D, hD31⟩
    have fm : m.length = 2 ∧ 1 ≤ natOfDigits m ∧ natOfDigits m ≤ 12
        ∨ m.length = 1 ∧ 1 ≤ natOfDigits m := by
      rcases hml with hq | hq
      . exact Or.inr ⟨hq, h1M⟩
      . exact Or.inl ⟨hq, h1M, hM12⟩
    have fh : h.length = 2 ∧ natOfDigits h ≤ 23 ∨ h.length = 1 ∧ True := by
      rcases hhl with hq | hq
      . exact Or.inr ⟨hq, trivial⟩
      . exact Or.inl ⟨hq, hH23⟩
    have fmi : mi.length = 2 ∧ natOfDigits mi ≤ 59 ∨ mi.length = 1 ∧ True := by
      rcases hmil with hq | hq
      . exact Or.inr ⟨hq, trivial⟩
      . exact Or.inl ⟨hq, hMi59⟩
    rcases hyl with h2 | h4
    . exact Or.inr ⟨⟨⟨⟨⟨fd, fm⟩, h2⟩, fh⟩, fmi⟩,
        h1Y, hYle, h1M, hM12, h1D, hDd, hH23, hMi59, Nat.zero_le 59⟩
    . exact Or.inl ⟨⟨⟨⟨⟨fd, fm⟩, h4⟩, fh⟩, fmi⟩,
        h1Y, hYle, h1M, hM12, h1D, hDd, hH23, hMi59, Nat.zero_le 59⟩

/-- Claim C7: timestamp parsing succeeds exactly on the four combinations
of a two-or-four-digit year with seconds present or absent
(day/month/year order, 24-hour time): over the digit-field shapes the
prefix regexes produce, `parse_timestamp` accepts iff the
specification's acceptance predicate holds, for an input with and
without a seconds field; and on any line whose prefix matched but whose
date/time fits none of the four patterns, processing aborts immediately
with the timestamp error, whatever lines follow. -/
theorem timestamp_four_patterns_and_abort :
    (∀ d m y h mi s : List Char,
      (∀ c ∈ d, c.isDigit = true) → (∀ c ∈ m, c.isDigit = true) →
      (∀ c ∈ y, c.isDigit = true) → (∀ c ∈ h, c.isDigit = true) →
      (∀ c ∈ mi, c.isDigit = true) → (∀ c ∈ s, c.isDigit = true) →
      (d.length = 1 ∨ d.length = 2) → (m.length = 1 ∨ m.length = 2) →
      (h.length = 1 ∨ h.length = 2) → (mi.length = 1 ∨ mi.length = 2) →
      (s.length = 1 ∨ s.length = 2) →
      ((parse_timestamp (d ++ ('/' :: (m ++ ('/' :: y))))
          (h ++ (':' :: (mi ++ (':' :: s))))).isSome = true
        ↔ specTimestampAccepts d m y h mi (some s)))
    ∧ (∀ d m y h mi : List Char,
      (∀ c ∈ d, c.isDigit = true) → (∀ c ∈ m, c.isDigit = true) →
      (∀ c ∈ y, c.isDigit = true) → (∀ c ∈ h, c.isDigit = true) →
      (∀ c ∈ mi, c.isDigit = true) →
      (d.length = 1 ∨ d.length = 2) → (m.length = 1 ∨ m.length = 2) →
      (h.length = 1 ∨ h.length = 2) → (mi.length = 1 ∨ mi.length = 2) →
      ((parse_timestamp (d ++ ('/' :: (m ++ ('/' :: y))))
          (h ++ (':' :: mi))).isSome = true
        ↔ specTimestampAccepts d m y h mi none))
    ∧ (∀ (st : ParseState) (l : List Char) (rest : List (List Char))
        (g : TsGroups) (mf : ExportFormat),
      matchTimestampFn (normalizeLine (rstripNl l)) st.exportFormat = some (g, mf) →
      parse_timestamp g.dateStr g.timeStr = none →
      processLines st (l :: rest) = .error (.badTimestamp (g.dateStr ++ ' ' :: g.timeStr))) := by
  refine ⟨?_, ?_, ?_⟩
  . intro d m y h mi s hd hm hy hh hmi hs hdl hml hhl hmil hsl
    exact parse_timestamp_secs_eval d m y h mi s hd hm hy hh hmi hs hdl hml hhl hmil hsl
  . intro d m y h mi hd hm hy hh hmi hdl hml hhl hmil
    exact parse_timestamp_nosecs_eval d m y h mi hd hm hy hh hmi hdl hml hhl hmil
  . intro st l rest g mf hmatch hp
    have hstep : stepLine st l = .error (.badTimestamp (g.dateStr ++ ' ' :: g.timeStr)) := by
      unfold stepLine
      dsimp only
      rw [hmatch]
      dsimp only
      rw [hp]
    unfold processLines
    rw [hstep]
